import Mathlib

/-!
Verification development for the data-parsing module of the repository
(`pyext/src/io/data_parsers.py`): the DSSP secondary-structure segment
extractor `parse_dssp` and the cross-link record parser
`parse_xlinks_davis`.

The Python code is shallowly embedded: Python strings become `List Char`,
Python runtime failures (KeyError, IndexError, NameError, ValueError,
AttributeError) become an explicit error type threaded through `Except`,
and the line-by-line loops become explicit folds over a state record whose
fields are the Python local variables (locals that may be unassigned are
`Option`s, reading an unassigned one raises NameError, as in Python).
-/

/-- Python runtime errors the parsing code can raise. -/
inductive PyErr where
  | keyErr (c : Char)
  | indexErr
  | nameErr
  | valueErr
  | attrErr
deriving Repr, DecidableEq

deriving instance DecidableEq for Except

/-- A Python string, as a list of characters. -/
abbrev PyStr := List Char

/-- The characters `str.split()` treats as whitespace. -/
def pyIsSpace (c : Char) : Bool :=
  c = ' ' || c = '\t' || c = '\n' || c = '\r' || c = '\x0b' || c = '\x0c'

/-- Helper for `pySplit`, carrying the (reversed) current word. -/
def pySplitAux : PyStr → PyStr → List PyStr
  | [], acc => if acc = [] then [] else [acc.reverse]
  | c :: cs, acc =>
      if pyIsSpace c then
        if acc = [] then pySplitAux cs [] else acc.reverse :: pySplitAux cs []
      else pySplitAux cs (c :: acc)

/-- Python `str.split()`: split on runs of whitespace, dropping empty words. -/
def pySplit (s : PyStr) : List PyStr := pySplitAux s []

/-- Python single-character indexing `s[i]`; IndexError when out of range. -/
def pyGet (s : PyStr) (i : Nat) : Except PyErr Char :=
  match s.get? i with
  | some c => Except.ok c
  | none => Except.error PyErr.indexErr

/-- Python slicing `s[a:b]` (clamping, never an error). -/
def pySlice (s : PyStr) (a b : Nat) : PyStr := (s.drop a).take (b - a)

/-- Numeric value of a digit string. -/
def digitsVal (ds : List Char) : Int :=
  ds.foldl (fun acc c => acc * 10 + ((c.toNat : Int) - ('0'.toNat : Int))) 0

/-- Strip `str.split()`-style whitespace from both ends. -/
def stripSpaces (s : PyStr) : PyStr :=
  ((s.dropWhile pyIsSpace).reverse.dropWhile pyIsSpace).reverse

/-- Python 2 `int(s)` after stripping: optional sign then decimal digits. -/
def pyIntCore (s : PyStr) : Except PyErr Int :=
  match s with
  | '-' :: ds =>
      if ds ≠ [] ∧ ds.all Char.isDigit then Except.ok (-(digitsVal ds))
      else Except.error PyErr.valueErr
  | '+' :: ds =>
      if ds ≠ [] ∧ ds.all Char.isDigit then Except.ok (digitsVal ds)
      else Except.error PyErr.valueErr
  | ds =>
      if ds ≠ [] ∧ ds.all Char.isDigit then Except.ok (digitsVal ds)
      else Except.error PyErr.valueErr

/-- Python 2 `int(s)`: ValueError unless the stripped string is an integer literal. -/
def pyInt (s : PyStr) : Except PyErr Int := pyIntCore (stripSpaces s)

/-- The three secondary-structure classes `parse_dssp` distinguishes
(the Python code uses the strings `'helix'`, `'beta'`, `'loop'`). -/
inductive SSEClass where
  | helix
  | beta
  | loop
deriving Repr, DecidableEq

/-- The `sse_dict` lookup of `parse_dssp`: helix_classes `GHI`, strand_classes
`EB`, loop_classes `' '`, `T`, `S` (the dict also maps the empty string to
loop, but a single character can never equal it).  Any other code raises
KeyError on that code, exactly as the unguarded `sse_dict[line[16]]` does. -/
def sse_dict (c : Char) : Except PyErr SSEClass :=
  if c = 'G' ∨ c = 'H' ∨ c = 'I' then Except.ok SSEClass.helix
  else if c = 'E' ∨ c = 'B' then Except.ok SSEClass.beta
  else if c = ' ' ∨ c = 'T' ∨ c = 'S' then Except.ok SSEClass.loop
  else Except.error (PyErr.keyErr c)

/-- One `cur_sse` dictionary: `{'chain': ..., 'residue_tuple': [start, end]}`. -/
structure SegEntry where
  chain : PyStr
  residue_tuple : Int × Int
deriving Repr, DecidableEq

/-- Modelled from the spec: a `Subsequence` of `IMP.pmi.io.data_storage`
(whose source is not part of the checked tree) is an ordered collection of
(chain, residue-range) entries; `Subsequence(**cur_sse)` is a one-entry
collection and `add_range` appends an entry. -/
abbrev Subsequence := List SegEntry

/-- Modelled from the spec: `SubsequenceData` holds three labelled
collections, `helix`, `beta` and `loop`, each an ordered list of
subsequences. -/
structure SubsequenceData where
  helix : List Subsequence
  beta : List Subsequence
  loop : List Subsequence
deriving Repr, DecidableEq

/-- Modelled from the spec: `SubsequenceData.add_subsequence(label, s)`
appends `s` to the collection named by `label`. -/
def add_subsequence (c : SSEClass) (s : Subsequence) (d : SubsequenceData) : SubsequenceData :=
  match c with
  | SSEClass.helix => { d with helix := d.helix ++ [s] }
  | SSEClass.beta => { d with beta := d.beta ++ [s] }
  | SSEClass.loop => { d with loop := d.loop ++ [s] }

/-- `beta_dict[key].append(v)` on an insertion-ordered mapping: if the key is
present, append to its list, otherwise add a new (key, [v]) binding at the
end. -/
def assocAppend (d : List (Option Char × List SegEntry)) (k : Option Char) (v : SegEntry) :
    List (Option Char × List SegEntry) :=
  match d with
  | [] => [(k, [v])]
  | (k0, vs) :: rest =>
      if k0 = k then (k0, vs ++ [v]) :: rest else (k0, vs) :: assocAppend rest k v

/-- The loop state of `parse_dssp`: the control flag `start`, the temporary
`beta_dict`, the segment-tracking variables, the per-row Python locals
(`pdb_res_num`, `chain`, `sstype`, `beta_id`; `none` = not yet assigned),
and the output container `sses`. -/
structure DsspState where
  start : Bool
  beta_dict : List (Option Char × List SegEntry)
  prev_sstype : Option SSEClass
  cur_sse : SegEntry
  prev_beta_id : Option Char
  pdb_res_num : Option Int
  chain : Option Char
  sstype : Option SSEClass
  beta_id : Option Char
  sses : SubsequenceData
deriving Repr, DecidableEq

/-- Reading a Python local that may not have been assigned yet: NameError
when it has no value. -/
def readLocal {α : Type} (o : Option α) : Except PyErr α :=
  match o with
  | some v => Except.ok v
  | none => Except.error PyErr.nameErr

/-- The "gather line info" block of `parse_dssp`, run only when the row is
not a chain break: `pdb_res_num = int(line[5:10])`, `chain = line[11]`,
`sstype = sse_dict[line[16]]`, `beta_id = line[33]`, in that order. -/
def gatherRow (line : PyStr) : Except PyErr (Int × Char × SSEClass × Char) :=
  match pyInt (pySlice line 5 10) with
  | Except.error e => Except.error e
  | Except.ok n =>
    match pyGet line 11 with
    | Except.error e => Except.error e
    | Except.ok ch =>
      match pyGet line 16 with
      | Except.error e => Except.error e
      | Except.ok c16 =>
        match sse_dict c16 with
        | Except.error e => Except.error e
        | Except.ok cls =>
          match pyGet line 33 with
          | Except.error e => Except.error e
          | Except.ok bid => Except.ok (n, ch, cls, bid)

/-- Closing the current SSE: helix/loop segments go straight to `sses`,
beta strands are appended to `beta_dict[prev_beta_id]`. -/
def closeSeg (prev : SSEClass) (st : DsspState) : DsspState :=
  match prev with
  | SSEClass.helix => { st with sses := add_subsequence SSEClass.helix [st.cur_sse] st.sses }
  | SSEClass.loop => { st with sses := add_subsequence SSEClass.loop [st.cur_sse] st.sses }
  | SSEClass.beta => { st with beta_dict := assocAppend st.beta_dict st.prev_beta_id st.cur_sse }

/-- The "decide whether to extend or store the SSE" block of `parse_dssp`.
Note that `chain` and `pdb_res_num` are read from the (possibly stale,
possibly unassigned) locals, and that the branch condition compares only
`sstype` with `prev_sstype` — the chain is never compared. -/
def dssp_decide (st : DsspState) (chain_break : Bool) : Except PyErr DsspState :=
  match st.prev_sstype with
  | none =>
    match readLocal st.chain with
    | Except.error e => Except.error e
    | Except.ok ch =>
      match readLocal st.pdb_res_num with
      | Except.error e => Except.error e
      | Except.ok n => Except.ok { st with cur_sse := ⟨[ch], (n, n)⟩ }
  | some prev =>
    match readLocal st.sstype with
    | Except.error e => Except.error e
    | Except.ok cls =>
      if cls ≠ prev ∨ chain_break then
        let st1 := closeSeg prev st
        match readLocal st1.chain with
        | Except.error e => Except.error e
        | Except.ok ch =>
          match readLocal st1.pdb_res_num with
          | Except.error e => Except.error e
          | Except.ok n => Except.ok { st1 with cur_sse := ⟨[ch], (n, n)⟩ }
      else
        match readLocal st.pdb_res_num with
        | Except.error e => Except.error e
        | Except.ok n =>
          Except.ok { st with cur_sse := ⟨st.cur_sse.chain, (st.cur_sse.residue_tuple.1, n)⟩ }

/-- The trailing bookkeeping of one `parse_dssp` iteration: a chain break
resets `prev_sstype`/`prev_beta_id`, otherwise they take the row's values. -/
def dssp_tail (st : DsspState) (chain_break : Bool) : Except PyErr DsspState :=
  if chain_break then Except.ok { st with prev_sstype := none, prev_beta_id := none }
  else
    match readLocal st.sstype with
    | Except.error e => Except.error e
    | Except.ok cls =>
      match readLocal st.beta_id with
      | Except.error e => Except.error e
      | Except.ok bid =>
        Except.ok { st with prev_sstype := some cls, prev_beta_id := some bid }

/-- After a successful gather: assign the four locals, then decide, then the
trailing bookkeeping, with `chain_break = False`. -/
def dssp_row_core (st : DsspState) (n : Int) (ch : Char) (cls : SSEClass) (bid : Char) :
    Except PyErr DsspState :=
  match dssp_decide { st with
      pdb_res_num := some n, chain := some ch,
      sstype := some cls, beta_id := some bid } false with
  | Except.error e => Except.error e
  | Except.ok st2 => dssp_tail st2 false

/-- Processing a non-break, non-filtered data row: gather, decide, tail. -/
def dssp_row (st : DsspState) (line : PyStr) : Except PyErr DsspState :=
  match gatherRow line with
  | Except.error e => Except.error e
  | Except.ok (n, ch, cls, bid) => dssp_row_core st n ch cls bid

/-- The token `"RESIDUE"` that marks the DSSP header row. -/
def residueTok : PyStr := ['R', 'E', 'S', 'I', 'D', 'U', 'E']

/-- One iteration of the `parse_dssp` loop over one input line. -/
def dssp_step (limit_to_chains : PyStr) (st : DsspState) (line : PyStr) :
    Except PyErr DsspState :=
  let fields := pySplit line
  if fields.length < 2 then Except.ok st
  else if fields.get? 1 = some residueTok then Except.ok { st with start := true }
  else if st.start = false then Except.ok st
  else
    match pyGet line 9 with
    | Except.error e => Except.error e
    | Except.ok c9 =>
      if c9 = ' ' then
        match dssp_decide st true with
        | Except.error e => Except.error e
        | Except.ok st2 => dssp_tail st2 true
      else if limit_to_chains ≠ [] then
        match pyGet line 11 with
        | Except.error e => Except.error e
        | Except.ok c11 =>
          if c11 ∈ limit_to_chains then dssp_row st line else Except.ok st
      else dssp_row st line

/-- The state `parse_dssp` starts from: `start=False`, empty `beta_dict`,
`prev_sstype=None`, `cur_sse={'chain':'','residue_tuple':[-1,-1]}`,
`prev_beta_id=None`, per-row locals unassigned, empty output. -/
def dsspInit : DsspState :=
  { start := false
    beta_dict := []
    prev_sstype := none
    cur_sse := ⟨[], (-1, -1)⟩
    prev_beta_id := none
    pdb_res_num := none
    chain := none
    sstype := none
    beta_id := none
    sses := ⟨[], [], []⟩ }

/-- Folding `dssp_step` over the input lines, stopping at the first error. -/
def dssp_run (limit : PyStr) : DsspState → List PyStr → Except PyErr DsspState
  | st, [] => Except.ok st
  | st, l :: ls =>
    match dssp_step limit st l with
    | Except.error e => Except.error e
    | Except.ok st2 => dssp_run limit st2 ls

/-- The "gather betas" loop at the end of `parse_dssp`: each `beta_dict`
group becomes one beta subsequence.  The source iterates a Python 2 dict,
whose iteration order is implementation-defined (hash-table order, not
insertion order); this model fixes insertion order, so any property of the
relative order of DIFFERENT sheet groups is a property of the model only,
not of the source.  Properties quantified over all groups, or concerning a
single group's contents, do not depend on this choice. -/
def gatherBetas (st : DsspState) : SubsequenceData :=
  st.beta_dict.foldl (fun acc kv => add_subsequence SSEClass.beta kv.2 acc) st.sses

/-- The "final SSE processing" of `parse_dssp`: flush the still-open segment
(if any) the same way the loop body does, then gather the beta groups. -/
def dssp_final (st : DsspState) : SubsequenceData :=
  match st.prev_sstype with
  | none => gatherBetas st
  | some SSEClass.helix =>
      gatherBetas { st with sses := add_subsequence SSEClass.helix [st.cur_sse] st.sses }
  | some SSEClass.loop =>
      gatherBetas { st with sses := add_subsequence SSEClass.loop [st.cur_sse] st.sses }
  | some SSEClass.beta =>
      gatherBetas { st with beta_dict := assocAppend st.beta_dict st.prev_beta_id st.cur_sse }

/-- `parse_dssp(dssp_fn, limit_to_chains='')`, over the file's lines. -/
def parse_dssp (lines : List PyStr) (limit_to_chains : PyStr) :
    Except PyErr SubsequenceData :=
  match dssp_run limit_to_chains dsspInit lines with
  | Except.error e => Except.error e
  | Except.ok st => Except.ok (dssp_final st)

/-! ## Concrete DSSP line builders (for the worked examples) -/

/-- Decimal digits of a natural number. -/
def natChars (n : Nat) : PyStr := Nat.toDigits 10 n

/-- Python `'%i' % r`: decimal rendering of an integer. -/
def intToChars (i : Int) : PyStr :=
  if i < 0 then '-' :: natChars i.natAbs else natChars i.natAbs

/-- Left-pad with spaces to width 10. -/
def padTo10 (ds : PyStr) : PyStr := List.replicate (10 - ds.length) ' ' ++ ds

/-- A well-formed 34-character DSSP data row: residue number right-aligned in
columns 0-9, chain at index 11, structure code at index 16, sheet label at
index 33. -/
def dsspRow (res : Int) (ch : Char) (code : Char) (sheet : Char) : PyStr :=
  padTo10 (intToChars res) ++ [' ', ch, ' ', ' ', ' ', ' ', code] ++
    List.replicate 16 ' ' ++ [sheet]

/-- The DSSP header row whose second field is `RESIDUE`. -/
def hdrLine : PyStr :=
  [' ', ' ', '#', ' ', ' '] ++ residueTok ++
    [' ', 'A', 'A', ' ', 'S', 'T', 'R', 'U', 'C', 'T', 'U', 'R', 'E']

/-- A DSSP chain-break row: two fields, blank at index 9. -/
def breakRow : PyStr :=
  [' ', ' ', '2', ' ', ' ', ' ', ' ', ' ', ' ', ' ', ' ', ' ', ' ', '!']

/-! ## The cross-link parser `parse_xlinks_davis` -/

/-- `\w` of Python 2 `re` without `re.UNICODE`: ASCII letters, digits, `_`. -/
def isWordChar (c : Char) : Bool := c.isAlphanum || c = '_'

/-- A character of the name group `[\w-]`. -/
def isNameChar (c : Char) : Bool := isWordChar c || c = '-'

/-- Try to match `([\w-]+)\((\w+)\)` at the start of `s` (the part after a
`>`).  Both character classes exclude `(` and `)`, so the greedy runs need
no backtracking. -/
def tryMatch (s : PyStr) : Option (PyStr × PyStr) :=
  let nm := s.takeWhile isNameChar
  if nm = [] then none
  else
    match s.drop nm.length with
    | '(' :: t =>
      let rs := t.takeWhile isWordChar
      if rs = [] then none
      else
        match t.drop rs.length with
        | ')' :: _ => some (nm, rs)
        | _ => none
    | _ => none

/-- `re.search(r'>([\w-]+)\((\w+)\)', s)`: first match anywhere in `s`,
giving the two capture groups, or `none`. -/
def reSearch : PyStr → Option (PyStr × PyStr)
  | [] => none
  | c :: rest =>
    if c = '>' then
      match tryMatch rest with
      | some r => some r
      | none => reSearch rest
    else reSearch rest

/-- Nonempty digit run. -/
def digitsNE (s : PyStr) : Bool := !s.isEmpty && s.all Char.isDigit

/-- Optionally signed digit run. -/
def signedDigits (s : PyStr) : Bool :=
  match s with
  | '-' :: t => digitsNE t
  | '+' :: t => digitsNE t
  | t => digitsNE t

/-- Optional exponent part of a float literal. -/
def expOk (s : PyStr) : Bool :=
  match s with
  | [] => true
  | 'e' :: t => signedDigits t
  | 'E' :: t => signedDigits t
  | _ => false

/-- Whether `float(s)` succeeds on a finite decimal literal (the `inf`/`nan`
spellings are not modelled; no input in this development uses them). -/
def pyFloatOk (s0 : PyStr) : Bool :=
  let s := stripSpaces s0
  let s1 := match s with
    | '-' :: t => t
    | '+' :: t => t
    | t => t
  let ip := s1.takeWhile Char.isDigit
  let rest := s1.drop ip.length
  match rest with
  | [] => !ip.isEmpty
  | '.' :: t =>
      let fr := t.takeWhile Char.isDigit
      (!ip.isEmpty || !fr.isEmpty) && expOk (t.drop fr.length)
  | _ => !ip.isEmpty && expOk rest

/-- Python dict lookup on an association list (first binding wins). -/
def assocFind {α β : Type} [DecidableEq α] (m : List (α × β)) (k : α) : Option β :=
  match m with
  | [] => none
  | (k0, v) :: rest => if k0 = k then some v else assocFind rest k

/-- One cross-link end: `{'molecule': n, 'residue_index': r}`. -/
structure XLEnd where
  molecule : PyStr
  residue_index : Int
deriving Repr, DecidableEq

/-- Modelled from the spec: one record of `CrossLinkData` (the
`IMP.pmi.io.data_storage` source is not part of the checked tree):
`add_cross_link(nl, r1, r2, score)` appends a record keyed by the input row
index `nl`.  The score is kept as the raw seventh field (its float value is
never consulted by the parser beyond validation). -/
structure XLRecord where
  id : Nat
  r1 : XLEnd
  r2 : XLEnd
  score : PyStr
deriving Repr, DecidableEq

/-- A deduplication key: the pair of `'%s.%i'` strings, sorted. -/
abbrev XKey := PyStr × PyStr

/-- Lexicographic (Python string) strict comparison by character code. -/
def listLt : PyStr → PyStr → Bool
  | [], [] => false
  | [], _ :: _ => true
  | _ :: _, [] => false
  | x :: xs, y :: ys => if x = y then listLt xs ys else decide (x < y)

/-- `'%s.%i' % (n, r)`. -/
def fmtEnd (n : PyStr) (r : Int) : PyStr := n ++ ('.' :: intToChars r)

/-- `tuple(sorted([a, b]))` for two strings. -/
def mkKey (a b : PyStr) : XKey := if listLt b a then (b, a) else (a, b)

/-- The deduplication key of a pair of (canonical name, residue index) ends. -/
def endsKey (n1 : PyStr) (r1 : Int) (n2 : PyStr) (r2 : Int) : XKey :=
  mkKey (fmtEnd n1 r1) (fmtEnd n2 r2)

/-- Name mapping and residue offsetting for one end: the raw name is
substituted through `name_map` if present, then `named_offsets` of the
canonical name (if present) is added to the residue index. -/
def mapEnd (name_map : List (PyStr × PyStr)) (named_offsets : List (PyStr × Int))
    (nm : PyStr) (r : Int) : PyStr × Int :=
  let n := match assocFind name_map nm with
    | some v => v
    | none => nm
  let r2 := match assocFind named_offsets n with
    | some o => r + o
    | none => r
  (n, r2)

/-- Processing of one cross-link row up to its key: unpack exactly seven
whitespace-separated fields (ValueError otherwise), validate the score as a
float, regex-search both `>NAME(RES)` fields (AttributeError when
`.group` is called on a failed search), parse the residue integers, apply
name map and offsets, and build the sorted key.  The order of failures
follows the source line by line. -/
def rowParse (name_map : List (PyStr × PyStr)) (named_offsets : List (PyStr × Int))
    (l : PyStr) : Except PyErr (XKey × XLEnd × XLEnd × PyStr) :=
  match pySplit l with
  | [_ig1, _ig2, _seq1, _seq2, s1, s2, score] =>
    if pyFloatOk score then
      match reSearch s1 with
      | none => Except.error PyErr.attrErr
      | some (g1n, g1r) =>
        match pyInt g1r with
        | Except.error e => Except.error e
        | Except.ok v1 =>
          let p1 := mapEnd name_map named_offsets g1n v1
          match reSearch s2 with
          | none => Except.error PyErr.attrErr
          | some (g2n, g2r) =>
            match pyInt g2r with
            | Except.error e => Except.error e
            | Except.ok v2 =>
              let p2 := mapEnd name_map named_offsets g2n v2
              Except.ok (endsKey p1.1 p1.2 p2.1 p2.2, ⟨p1.1, p1.2⟩, ⟨p2.1, p2.2⟩, score)
    else Except.error PyErr.valueErr
  | _ => Except.error PyErr.valueErr

/-- The loop state of `parse_xlinks_davis`: the `found` key set, the
accumulated records, and the keys of rows dropped as duplicates (the
source reports each with a `print`). -/
structure XLState where
  found : List XKey
  recs : List XLRecord
  skipped : List XKey
deriving Repr, DecidableEq

/-- The empty starting state of `parse_xlinks_davis`. -/
def xlInit : XLState := ⟨[], [], []⟩

/-- The duplicate branch: `print 'skipping duplicated xl', key; continue`
(the diagnostic is recorded in `skipped`). -/
def xlSkipSt (st : XLState) (k : XKey) : XLState :=
  { st with skipped := st.skipped ++ [k] }

/-- The accept branch: `found.add(key)` and `data.add_cross_link(nl, ...)`. -/
def xlAddSt (st : XLState) (k : XKey) (nl : Nat) (e1 e2 : XLEnd) (sc : PyStr) : XLState :=
  { st with found := k :: st.found, recs := st.recs ++ [⟨nl, e1, e2, sc⟩] }

/-- The `for nl,l in enumerate(inf)` loop of `parse_xlinks_davis`: a row is
examined only while `max_num==-1 or nl<max_num`; an examined row is fully
parsed, then either dropped as a duplicate (key already in `found`) or
appended as a record with id `nl`. -/
def xl_run (name_map : List (PyStr × PyStr)) (named_offsets : List (PyStr × Int))
    (max_num : Int) : Nat → XLState → List PyStr → Except PyErr XLState
  | _, st, [] => Except.ok st
  | nl, st, l :: ls =>
    if max_num = -1 ∨ (nl : Int) < max_num then
      match rowParse name_map named_offsets l with
      | Except.error e => Except.error e
      | Except.ok (key, e1, e2, sc) =>
        if key ∈ st.found then
          xl_run name_map named_offsets max_num (nl + 1) (xlSkipSt st key) ls
        else
          xl_run name_map named_offsets max_num (nl + 1) (xlAddSt st key nl e1 e2 sc) ls
    else xl_run name_map named_offsets max_num (nl + 1) st ls

/-- `parse_xlinks_davis(model, data_fn, max_num=-1, name_map={},
named_offsets={}, use_chains={})` over the file's lines (the `use_chains`
argument is never read by the source; the IMP `model` only seeds the output
container).  Returns the records together with the duplicate-key
diagnostics printed along the way. -/
def parse_xlinks_davis (lines : List PyStr) (max_num : Int)
    (name_map : List (PyStr × PyStr)) (named_offsets : List (PyStr × Int)) :
    Except PyErr (List XLRecord × List XKey) :=
  match xl_run name_map named_offsets max_num 0 xlInit lines with
  | Except.error e => Except.error e
  | Except.ok st => Except.ok (st.recs, st.skipped)

/-! ## Worked inputs used by the claims -/

/-- A DSSP data row with the unrecognized structure code `X`. -/
def badCodeRow : PyStr := dsspRow 1 'A' 'X' ' '

/-- Cross-link row `x y QQ WW >A(5) >B(10) 12.5`. -/
def xlRowAB : PyStr := "x y QQ WW >A(5) >B(10) 12.5".data

/-- Cross-link row `x y QQ WW >B(10) >A(5) 99.0` (ends swapped, other score). -/
def xlRowBA : PyStr := "x y QQ WW >B(10) >A(5) 99.0".data

/-- A cross-link row with only six fields. -/
def xlRowSix : PyStr := "a b c d e 1.0".data

/-- A seven-field cross-link row whose fifth field lacks the `>` marker. -/
def xlRowNoGt : PyStr := "a b c d NAME(5) >B(10) 1.0".data

/-- C1: on a DSSP row whose structure code is not one of `GHIEB TS`, the
source fails via the unguarded dictionary lookup `sse_dict[line[16]]` — a
KeyError carrying the code — not via a `ParseError`.  The row is not
misclassified (no output is produced), but the error is a bare lookup
failure, which is what the spec singles out as a defect to fix. -/
theorem parse_dssp_unknown_code_keyerror :
    parse_dssp [hdrLine, badCodeRow] [] = Except.error (PyErr.keyErr 'X') := by
  decide

/-- C2: a cross-link row that does not have the expected 7-field shape makes
the source fail with a bare ValueError (tuple unpacking) — and a 7-field row
whose fifth field does not match `>NAME(RES)` fails with a bare
AttributeError (`.group` on a failed `re.search`).  Neither failure is a
`ParseError` and neither carries the row number or the raw row, contrary to
the spec; but no malformed row is silently skipped. -/
theorem parse_xlinks_malformed_row_errors :
    parse_xlinks_davis [xlRowSix] (-1) [] [] = Except.error PyErr.valueErr ∧
    parse_xlinks_davis [xlRowNoGt] (-1) [] [] = Except.error PyErr.attrErr := by
  constructor
  · decide
  · decide

/-- C3 (counterexample): two consecutive rows of the same structure class
but different chains (`A` then `B`), with no chain-break row between them,
are merged into one segment labelled with the first row's chain.  The
extension rule therefore does not require "the same chain", and an output
segment's rows need not come from a single chain: the second row's chain is
`B`, yet the only output segment says chain `A` and covers residues 1-2. -/
theorem parse_dssp_chain_not_compared :
    parse_dssp [hdrLine, dsspRow 1 'A' 'H' ' ', dsspRow 2 'B' 'H' ' '] [] =
      Except.ok ⟨[[⟨['A'], (1, 2)⟩]], [], []⟩ ∧
    pyGet (dsspRow 2 'B' 'H' ' ') 11 = Except.ok 'B' ∧ ('B' : Char) ≠ 'A' := by
  refine ⟨by decide, by decide, by decide⟩

/-- C4 (counterexample): residue numbers in a DSSP file are PDB numbering
and may decrease; extending a segment simply overwrites the range end with
the new row's residue number, so a file with rows at residues 10 then 5
yields a segment whose range is (10, 5) — violating `start <= end`. -/
theorem parse_dssp_range_can_decrease :
    parse_dssp [hdrLine, dsspRow 10 'A' 'H' ' ', dsspRow 5 'A' 'H' ' '] [] =
      Except.ok ⟨[[⟨['A'], (10, 5)⟩]], [], []⟩ ∧
    ¬ ((10 : Int) ≤ 5) := by
  refine ⟨by decide, by decide⟩

/-! ## Branch lemmas for `dssp_step` -/

theorem closeSeg_chain (prev : SSEClass) (st : DsspState) :
    (closeSeg prev st).chain = st.chain := by
  cases prev <;> rfl

theorem closeSeg_pdb (prev : SSEClass) (st : DsspState) :
    (closeSeg prev st).pdb_res_num = st.pdb_res_num := by
  cases prev <;> rfl

theorem closeSeg_sstype (prev : SSEClass) (st : DsspState) :
    (closeSeg prev st).sstype = st.sstype := by
  cases prev <;> rfl

theorem closeSeg_beta_id (prev : SSEClass) (st : DsspState) :
    (closeSeg prev st).beta_id = st.beta_id := by
  cases prev <;> rfl

theorem gatherRow_parts {line : PyStr} {n : Int} {ch bid : Char} {cls : SSEClass}
    (h : gatherRow line = Except.ok (n, ch, cls, bid)) :
    pyInt (pySlice line 5 10) = Except.ok n ∧ pyGet line 11 = Except.ok ch ∧
    pyGet line 33 = Except.ok bid := by
  unfold gatherRow at h
  repeat' split at h
  all_goals simp_all

/-- Reduction of `dssp_step` on a started, non-break data row that passes
the chain filter: the step is `dssp_row`. -/
theorem dssp_step_row (limit : PyStr) (st : DsspState) (line : PyStr) (c9 : Char)
    (hlen : ¬ (pySplit line).length < 2)
    (hnr : ¬ (pySplit line).get? 1 = some residueTok)
    (hstart : st.start = true)
    (h9 : pyGet line 9 = Except.ok c9) (hc9 : c9 ≠ ' ')
    (hfil : limit = [] ∨ ∃ c11, pyGet line 11 = Except.ok c11 ∧ c11 ∈ limit) :
    dssp_step limit st line = dssp_row st line := by
  unfold dssp_step
  rw [if_neg hlen, if_neg hnr, if_neg (show ¬ st.start = false by simp [hstart]), h9]
  rcases hfil with hl | ⟨c11, h11, hin⟩
  · simp [hl, hc9]
  · by_cases hl : limit = []
    · simp [hl, hc9]
    · simp [hl, hc9, h11, hin]

/-- Reduction of `dssp_step` on a started, non-break data row filtered out
by a nonempty chain filter: the row is skipped and the state unchanged. -/
theorem dssp_step_skip (limit : PyStr) (st : DsspState) (line : PyStr) (c9 c11 : Char)
    (hlen : ¬ (pySplit line).length < 2)
    (hnr : ¬ (pySplit line).get? 1 = some residueTok)
    (hstart : st.start = true)
    (h9 : pyGet line 9 = Except.ok c9) (hc9 : c9 ≠ ' ')
    (hlim : limit ≠ []) (h11 : pyGet line 11 = Except.ok c11) (hno : c11 ∉ limit) :
    dssp_step limit st line = Except.ok st := by
  unfold dssp_step
  rw [if_neg hlen, if_neg hnr, if_neg (show ¬ st.start = false by simp [hstart]), h9]
  simp [hc9, hlim, h11, hno]

/-- Reduction of `dssp_step` on a started chain-break row. -/
theorem dssp_step_break (limit : PyStr) (st : DsspState) (line : PyStr)
    (hlen : ¬ (pySplit line).length < 2)
    (hnr : ¬ (pySplit line).get? 1 = some residueTok)
    (hstart : st.start = true)
    (h9 : pyGet line 9 = Except.ok ' ') :
    dssp_step limit st line =
      match dssp_decide st true with
      | Except.error e => Except.error e
      | Except.ok st2 => dssp_tail st2 true := by
  unfold dssp_step
  rw [if_neg hlen, if_neg hnr, if_neg (show ¬ st.start = false by simp [hstart]), h9]
  simp

theorem dssp_decide_none {st : DsspState} {ch : Char} {n : Int} (cb : Bool)
    (hprev : st.prev_sstype = none) (hch : st.chain = some ch)
    (hpdb : st.pdb_res_num = some n) :
    dssp_decide st cb = Except.ok { st with cur_sse := ⟨[ch], (n, n)⟩ } := by
  unfold dssp_decide
  simp [hprev, hch, hpdb, readLocal]

theorem dssp_decide_none_fail {st : DsspState} (cb : Bool)
    (hprev : st.prev_sstype = none) (hch : st.chain = none) :
    dssp_decide st cb = Except.error PyErr.nameErr := by
  unfold dssp_decide
  simp [hprev, hch, readLocal]

theorem dssp_decide_extend {st : DsspState} {prev : SSEClass} {n : Int}
    (hprev : st.prev_sstype = some prev) (hss : st.sstype = some prev)
    (hpdb : st.pdb_res_num = some n) :
    dssp_decide st false =
      Except.ok { st with cur_sse := ⟨st.cur_sse.chain, (st.cur_sse.residue_tuple.1, n)⟩ } := by
  unfold dssp_decide
  simp [hprev, hss, hpdb, readLocal]

theorem dssp_decide_close {st : DsspState} {prev cls : SSEClass} {ch : Char} {n : Int}
    (cb : Bool)
    (hprev : st.prev_sstype = some prev) (hss : st.sstype = some cls)
    (hcond : cls ≠ prev ∨ cb = true)
    (hch : st.chain = some ch) (hpdb : st.pdb_res_num = some n) :
    dssp_decide st cb = Except.ok { closeSeg prev st with cur_sse := ⟨[ch], (n, n)⟩ } := by
  unfold dssp_decide
  simp only [hprev, hss, readLocal]
  rw [if_pos hcond]
  simp [closeSeg_chain, closeSeg_pdb, hch, hpdb, readLocal]

theorem dssp_tail_break (st : DsspState) :
    dssp_tail st true = Except.ok { st with prev_sstype := none, prev_beta_id := none } := by
  rfl

theorem dssp_tail_row {st : DsspState} {cls : SSEClass} {bid : Char}
    (hss : st.sstype = some cls) (hb : st.beta_id = some bid) :
    dssp_tail st false =
      Except.ok { st with prev_sstype := some cls, prev_beta_id := some bid } := by
  unfold dssp_tail
  simp [hss, hb, readLocal]

/-- Total number of closed segments held by a state (flushed helix/loop
subsequences plus beta strands parked in `beta_dict`). -/
def closedCount (st : DsspState) : Nat :=
  st.sses.helix.length + st.sses.loop.length +
    (st.beta_dict.map (fun kv => kv.2.length)).sum

theorem assocAppend_sum (d : List (Option Char × List SegEntry)) (k : Option Char)
    (v : SegEntry) :
    ((assocAppend d k v).map (fun kv => kv.2.length)).sum =
      (d.map (fun kv => kv.2.length)).sum + 1 := by
  induction d with
  | nil => simp [assocAppend]
  | cons hd tl ih =>
    obtain ⟨k0, vs⟩ := hd
    by_cases h : k0 = k
    · simp [assocAppend, h]
      omega
    · simp [assocAppend, h, ih]
      omega

theorem closedCount_closeSeg (prev : SSEClass) (st : DsspState) :
    closedCount (closeSeg prev st) = closedCount st + 1 := by
  cases prev <;>
    simp [closeSeg, closedCount, add_subsequence, assocAppend_sum] <;> omega

/-- A concrete mid-parse state: the header and one helix row at A:1 have
been processed (used to witness the step-level theorems). -/
def dsspWitState : DsspState :=
  { start := true
    beta_dict := []
    prev_sstype := some SSEClass.helix
    cur_sse := ⟨['A'], (1, 1)⟩
    prev_beta_id := some ' '
    pdb_res_num := some 1
    chain := some 'A'
    sstype := some SSEClass.helix
    beta_id := some ' '
    sses := ⟨[], [], []⟩ }

/-- C3 (amended): a started, unfiltered, non-break data row extends the
currently open segment — same `sses`, same `beta_dict`, same segment count,
only the range end moved to the row's residue number — exactly when its
structure class equals the open segment's class.  The chain is never
compared (the segment keeps its opening row's chain), and on a class change
the open segment is closed (the stored-segment count grows by one) and a
fresh one-residue segment is opened from the row. -/
theorem dssp_extension_rule (limit : PyStr) (st : DsspState) (line : PyStr)
    (prev cls : SSEClass) (n : Int) (ch bid : Char)
    (hstart : st.start = true)
    (hprev : st.prev_sstype = some prev)
    (hlen : ¬ (pySplit line).length < 2)
    (hnr : ¬ (pySplit line).get? 1 = some residueTok)
    (h9 : ∃ c9, pyGet line 9 = Except.ok c9 ∧ c9 ≠ ' ')
    (hg : gatherRow line = Except.ok (n, ch, cls, bid))
    (hf : limit = [] ∨ ch ∈ limit) :
    ∃ st', dssp_step limit st line = Except.ok st' ∧
      (cls = prev →
        st'.sses = st.sses ∧ st'.beta_dict = st.beta_dict ∧
        st'.cur_sse.chain = st.cur_sse.chain ∧
        st'.cur_sse.residue_tuple = (st.cur_sse.residue_tuple.1, n) ∧
        closedCount st' = closedCount st) ∧
      (cls ≠ prev →
        st'.cur_sse = ⟨[ch], (n, n)⟩ ∧
        closedCount st' = closedCount st + 1) := by
  obtain ⟨c9, h9ok, h9ne⟩ := h9
  obtain ⟨h5, h11, h33⟩ := gatherRow_parts hg
  have hstep : dssp_step limit st line = dssp_row st line :=
    dssp_step_row limit st line c9 hlen hnr hstart h9ok h9ne
      (hf.elim Or.inl (fun hin => Or.inr ⟨ch, h11, hin⟩))
  rw [hstep]
  unfold dssp_row
  rw [hg]
  unfold dssp_row_core
  by_cases hcp : cls = prev
  · subst hcp
    simp only [dssp_decide, dssp_tail, readLocal, hprev]
    simp [hprev, closedCount]
  · simp only [dssp_decide, dssp_tail, readLocal, hprev]
    simp [hprev, hcp, closeSeg_chain, closeSeg_pdb, closeSeg_sstype, closeSeg_beta_id]
    cases prev <;>
      simp [closedCount, closeSeg, add_subsequence, assocAppend_sum] <;> omega

/-- Witness for `dssp_extension_rule`: after the state reached by
`A:1 H`, the row `B:2 H` (different chain, same class) is accepted and the
flushed output `sses` is unchanged — the segment was extended, not split. -/
theorem dssp_extension_rule_witness :
    Except.map DsspState.sses (dssp_step [] dsspWitState (dsspRow 2 'B' 'H' ' ')) =
      Except.ok (⟨[], [], []⟩ : SubsequenceData) := by
  obtain ⟨st', hstep, hext, -⟩ :=
    dssp_extension_rule [] dsspWitState (dsspRow 2 'B' 'H' ' ')
      SSEClass.helix SSEClass.helix 2 'B' ' '
      rfl rfl (by decide) (by decide) ⟨'2', by decide, by decide⟩ (by decide) (Or.inl rfl)
  obtain ⟨hsses, -, -, -, -⟩ := hext rfl
  rw [hstep]
  simp [Except.map, hsses]
  rfl

/-- C7: with a nonempty chain filter, a started, non-break data row whose
chain is not in the filter is skipped with the state fully unchanged — it
is not a chain break, so the open segment silently continues across it; in
particular filtering to chain `A`, the rows `A:1 H`, `B:2 H`, `A:3 H` yield
the single helix segment A:1-3. -/
theorem dssp_filter_continues :
    (∀ limit st line c9 c11,
      ¬ (pySplit line).length < 2 → ¬ (pySplit line).get? 1 = some residueTok →
      st.start = true →
      pyGet line 9 = Except.ok c9 → c9 ≠ ' ' →
      limit ≠ [] → pyGet line 11 = Except.ok c11 → c11 ∉ limit →
      dssp_step limit st line = Except.ok st) ∧
    parse_dssp [hdrLine, dsspRow 1 'A' 'H' ' ', dsspRow 2 'B' 'H' ' ', dsspRow 3 'A' 'H' ' ']
        ['A'] =
      Except.ok ⟨[[⟨['A'], (1, 3)⟩]], [], []⟩ := by
  refine ⟨?_, by decide⟩
  intro limit st line c9 c11 hlen hnr hstart h9 hc9 hlim h11 hno
  exact dssp_step_skip limit st line c9 c11 hlen hnr hstart h9 hc9 hlim h11 hno

/-- Witness for `dssp_filter_continues`: the row `B:2 H` under filter `A`
leaves the concrete mid-parse state untouched. -/
theorem dssp_filter_continues_witness :
    dssp_step ['A'] dsspWitState (dsspRow 2 'B' 'H' ' ') = Except.ok dsspWitState :=
  dssp_filter_continues.1 ['A'] dsspWitState (dsspRow 2 'B' 'H' ' ') '2' 'B'
    (by decide) (by decide) rfl (by decide) (by decide) (by decide) (by decide) (by decide)

/-- C10: if the first data row after the RESIDUE header is a chain-break
row (blank at index 9), the `cur_sse` assignment reads the never-assigned
local `chain` and the parse aborts with NameError; once some non-break data
row has assigned the locals, a break row is handled without error and
resets `prev_sstype`. -/
theorem dssp_break_uninitialized :
    (∀ limit st line,
      st.start = true → st.prev_sstype = none → st.chain = none →
      ¬ (pySplit line).length < 2 → ¬ (pySplit line).get? 1 = some residueTok →
      pyGet line 9 = Except.ok ' ' →
      dssp_step limit st line = Except.error PyErr.nameErr) ∧
    (∀ limit st line ch n,
      st.start = true → st.chain = some ch → st.pdb_res_num = some n →
      (st.prev_sstype = none ∨
        ∃ p s, st.prev_sstype = some p ∧ st.sstype = some s) →
      ¬ (pySplit line).length < 2 → ¬ (pySplit line).get? 1 = some residueTok →
      pyGet line 9 = Except.ok ' ' →
      ∃ st2, dssp_step limit st line = Except.ok st2 ∧ st2.prev_sstype = none) ∧
    parse_dssp [hdrLine, breakRow] [] = Except.error PyErr.nameErr := by
  refine ⟨?_, ?_, by decide⟩
  · intro limit st line hstart hprev hch hlen hnr h9
    rw [dssp_step_break limit st line hlen hnr hstart h9,
      dssp_decide_none_fail true hprev hch]
  · intro limit st line ch n hstart hch hpdb hopt hlen hnr h9
    rw [dssp_step_break limit st line hlen hnr hstart h9]
    rcases hopt with hprev | ⟨p, s, hprev, hss⟩
    · rw [dssp_decide_none true hprev hch hpdb]
      exact ⟨_, dssp_tail_break _, rfl⟩
    · rw [dssp_decide_close true hprev hss (Or.inr rfl) hch hpdb]
      exact ⟨_, dssp_tail_break _, rfl⟩

/-- Witness for `dssp_break_uninitialized`: with locals already assigned
(state after `A:1 H`), a concrete break row is processed without error. -/
theorem dssp_break_uninitialized_witness :
    Except.map DsspState.prev_sstype (dssp_step [] dsspWitState breakRow) =
      Except.ok (none : Option SSEClass) := by
  obtain ⟨st2, hstep, hnone⟩ :=
    dssp_break_uninitialized.2.1 [] dsspWitState breakRow 'A' 1
      rfl rfl rfl (Or.inr ⟨SSEClass.helix, SSEClass.helix, rfl, rfl⟩)
      (by decide) (by decide) (by decide)
  rw [hstep]
  simp [Except.map, hnone]

/-! ## The final beta-gathering pass -/

theorem foldl_addBeta_helix (d : List (Option Char × List SegEntry)) (s : SubsequenceData) :
    (d.foldl (fun acc kv => add_subsequence SSEClass.beta kv.2 acc) s).helix = s.helix := by
  induction d generalizing s with
  | nil => rfl
  | cons hd tl ih => rw [List.foldl_cons, ih]; rfl

theorem foldl_addBeta_loop (d : List (Option Char × List SegEntry)) (s : SubsequenceData) :
    (d.foldl (fun acc kv => add_subsequence SSEClass.beta kv.2 acc) s).loop = s.loop := by
  induction d generalizing s with
  | nil => rfl
  | cons hd tl ih => rw [List.foldl_cons, ih]; rfl

theorem foldl_addBeta_beta (d : List (Option Char × List SegEntry)) (s : SubsequenceData) :
    (d.foldl (fun acc kv => add_subsequence SSEClass.beta kv.2 acc) s).beta =
      s.beta ++ d.map Prod.snd := by
  induction d generalizing s with
  | nil => simp
  | cons hd tl ih => rw [List.foldl_cons, ih]; simp [add_subsequence]

theorem gatherBetas_helix (st : DsspState) : (gatherBetas st).helix = st.sses.helix :=
  foldl_addBeta_helix st.beta_dict st.sses

theorem gatherBetas_loop (st : DsspState) : (gatherBetas st).loop = st.sses.loop :=
  foldl_addBeta_loop st.beta_dict st.sses

theorem gatherBetas_beta (st : DsspState) :
    (gatherBetas st).beta = st.sses.beta ++ st.beta_dict.map Prod.snd :=
  foldl_addBeta_beta st.beta_dict st.sses

/-- The 10-line DSSP input of the spec's worked example: one chain, rows
coded `HHHEEE` then three blank (loop) codes, residues 1..9. -/
def dsspNineLines : List PyStr :=
  [hdrLine,
   dsspRow 1 'A' 'H' ' ', dsspRow 2 'A' 'H' ' ', dsspRow 3 'A' 'H' ' ',
   dsspRow 4 'A' 'E' 'S', dsspRow 5 'A' 'E' 'S', dsspRow 6 'A' 'E' 'S',
   dsspRow 7 'A' ' ' ' ', dsspRow 8 'A' ' ' ' ', dsspRow 9 'A' ' ' ' ']

/-- C9: a segment still open at end-of-input is closed and flushed by the
terminal step exactly as the mid-stream rule (`closeSeg`) would close it —
an open helix/loop lands at the end of its category, an open beta strand
joins its sheet group before the groups are emitted; in particular the
one-chain file coded `HHHEEE` plus three loop rows at residues 1..9 parses
to helix = [1-3], beta = [[4-6]], loop = [7-9]. -/
theorem dssp_terminal_flush :
    (∀ st prev, st.prev_sstype = some prev →
      dssp_final st = gatherBetas (closeSeg prev st) ∧
      (prev = SSEClass.helix →
        (dssp_final st).helix = st.sses.helix ++ [[st.cur_sse]] ∧
        (dssp_final st).loop = st.sses.loop) ∧
      (prev = SSEClass.loop →
        (dssp_final st).loop = st.sses.loop ++ [[st.cur_sse]] ∧
        (dssp_final st).helix = st.sses.helix) ∧
      (prev = SSEClass.beta →
        (dssp_final st).beta =
          st.sses.beta ++
            (assocAppend st.beta_dict st.prev_beta_id st.cur_sse).map Prod.snd)) ∧
    parse_dssp dsspNineLines [] =
      Except.ok ⟨[[⟨['A'], (1, 3)⟩]], [[⟨['A'], (4, 6)⟩]], [[⟨['A'], (7, 9)⟩]]⟩ := by
  refine ⟨?_, by decide⟩
  intro st prev hprev
  refine ⟨?_, ?_, ?_, ?_⟩
  · cases prev <;> simp [dssp_final, hprev, closeSeg]
  · rintro rfl
    simp [dssp_final, hprev, gatherBetas_helix, gatherBetas_loop, add_subsequence]
  · rintro rfl
    simp [dssp_final, hprev, gatherBetas_helix, gatherBetas_loop, add_subsequence]
  · rintro rfl
    simp [dssp_final, hprev, gatherBetas_beta]

/-- Witness for `dssp_terminal_flush`: the terminal flush of the concrete
mid-parse state (open helix A:1-1) equals the mid-stream closure. -/
theorem dssp_terminal_flush_witness :
    dssp_final dsspWitState = gatherBetas (closeSeg SSEClass.helix dsspWitState) :=
  (dssp_terminal_flush.1 dsspWitState SSEClass.helix rfl).1

/-! ## Range invariants (C4) -/

/-- The residue number a line would contribute: the parsed `int(line[5:10])`
of any plausible data row (two fields, not the header, non-blank at index
9, parsable number); `none` otherwise. -/
def lineResNum (line : PyStr) : Option Int :=
  if (pySplit line).length < 2 then none
  else if (pySplit line).get? 1 = some residueTok then none
  else
    match pyGet line 9 with
    | Except.error _ => none
    | Except.ok c9 =>
      if c9 = ' ' then none
      else
        match pyInt (pySlice line 5 10) with
        | Except.error _ => none
        | Except.ok n => some n

/-- A well-formed segment: ordered range and nonempty chain. -/
def SegOk (seg : SegEntry) : Prop :=
  seg.residue_tuple.1 ≤ seg.residue_tuple.2 ∧ seg.chain ≠ []

/-- All flushed segments of a `SubsequenceData` are well formed. -/
def SsesOk (d : SubsequenceData) : Prop :=
  ∀ grp ∈ d.helix ++ d.beta ++ d.loop, ∀ seg ∈ grp, SegOk seg

/-- All strands parked in a beta dictionary are well formed. -/
def BetaDictOk (bd : List (Option Char × List SegEntry)) : Prop :=
  ∀ kv ∈ bd, ∀ seg ∈ kv.2, SegOk seg

/-- The run invariant: everything flushed is well formed and, while a
segment is open, it is well formed and `pdb_res_num` holds its range end. -/
def StateOk (st : DsspState) : Prop :=
  SsesOk st.sses ∧ BetaDictOk st.beta_dict ∧
  (∀ prev, st.prev_sstype = some prev →
    SegOk st.cur_sse ∧ st.pdb_res_num = some st.cur_sse.residue_tuple.2)

theorem mem_add_subsequence (c : SSEClass) (s : Subsequence) (d : SubsequenceData)
    (grp : Subsequence)
    (h : grp ∈ (add_subsequence c s d).helix ++ (add_subsequence c s d).beta ++
      (add_subsequence c s d).loop) :
    grp ∈ d.helix ++ d.beta ++ d.loop ∨ grp = s := by
  cases c <;> simp [add_subsequence] at h ⊢ <;> tauto

theorem mem_assocAppend (d : List (Option Char × List SegEntry)) (k : Option Char)
    (v : SegEntry) (kv : Option Char × List SegEntry) (h : kv ∈ assocAppend d k v) :
    ∀ seg ∈ kv.2, (∃ kv0 ∈ d, seg ∈ kv0.2) ∨ seg = v := by
  induction d with
  | nil =>
    simp [assocAppend] at h
    subst h
    simp
  | cons hd tl ih =>
    obtain ⟨k0, vs⟩ := hd
    by_cases hk : k0 = k
    · rw [assocAppend, if_pos hk] at h
      rcases List.mem_cons.mp h with rfl | hmem
      · intro seg hs
        rcases List.mem_append.mp hs with h1 | h1
        · exact Or.inl ⟨(k0, vs), List.mem_cons_self _ _, h1⟩
        · simp at h1
          exact Or.inr h1
      · intro seg hs
        exact Or.inl ⟨kv, List.mem_cons_of_mem _ hmem, hs⟩
    · rw [assocAppend, if_neg hk] at h
      rcases List.mem_cons.mp h with rfl | hmem
      · intro seg hs
        exact Or.inl ⟨(k0, vs), List.mem_cons_self _ _, hs⟩
      · intro seg hs
        rcases ih hmem seg hs with ⟨kv0, h0, h1⟩ | h1
        · exact Or.inl ⟨kv0, List.mem_cons_of_mem _ h0, h1⟩
        · exact Or.inr h1

theorem closeSeg_preserves {st : DsspState} (prev : SSEClass)
    (hses : SsesOk st.sses) (hbd : BetaDictOk st.beta_dict)
    (hcur : SegOk st.cur_sse) :
    SsesOk (closeSeg prev st).sses ∧ BetaDictOk (closeSeg prev st).beta_dict := by
  cases prev with
  | beta =>
    refine ⟨hses, ?_⟩
    intro kv hkv seg hs
    rcases mem_assocAppend st.beta_dict st.prev_beta_id st.cur_sse kv hkv seg hs with
      ⟨kv0, h0, h1⟩ | h1
    · exact hbd kv0 h0 seg h1
    · exact h1 ▸ hcur
  | helix =>
    refine ⟨?_, hbd⟩
    intro grp hg seg hs
    rcases mem_add_subsequence SSEClass.helix [st.cur_sse] st.sses grp hg with h0 | rfl
    · exact hses grp h0 seg hs
    · simp at hs
      exact hs ▸ hcur
  | loop =>
    refine ⟨?_, hbd⟩
    intro grp hg seg hs
    rcases mem_add_subsequence SSEClass.loop [st.cur_sse] st.sses grp hg with h0 | rfl
    · exact hses grp h0 seg hs
    · simp at hs
      exact hs ▸ hcur

/-! ## Preservation of the range invariant (C4) -/

theorem closeSeg_prev_sstype (prev : SSEClass) (st : DsspState) :
    (closeSeg prev st).prev_sstype = st.prev_sstype := by
  cases prev <;> rfl

theorem dssp_decide_preserves (st st2 : DsspState) (cb : Bool)
    (hses : SsesOk st.sses) (hbd : BetaDictOk st.beta_dict)
    (hcurOk : ∀ prev, st.prev_sstype = some prev → SegOk st.cur_sse)
    (hcur2 : ∀ prev n, st.prev_sstype = some prev → st.pdb_res_num = some n →
      st.cur_sse.residue_tuple.2 ≤ n)
    (h : dssp_decide st cb = Except.ok st2) :
    SsesOk st2.sses ∧ BetaDictOk st2.beta_dict ∧ SegOk st2.cur_sse ∧
    (∀ n, st.pdb_res_num = some n → st2.cur_sse.residue_tuple.2 = n) ∧
    st2.pdb_res_num = st.pdb_res_num ∧ st2.prev_sstype = st.prev_sstype ∧
    st2.sstype = st.sstype ∧ st2.beta_id = st.beta_id := by
  unfold dssp_decide at h
  cases hprev : st.prev_sstype with
  | none =>
    rw [hprev] at h
    cases hch : st.chain with
    | none => rw [hch] at h; simp [readLocal] at h
    | some ch =>
      rw [hch] at h
      cases hpdb : st.pdb_res_num with
      | none => rw [hpdb] at h; simp [readLocal] at h
      | some n =>
        rw [hpdb] at h
        simp only [readLocal, Except.ok.injEq] at h
        subst h
        refine ⟨hses, hbd, ⟨le_refl n, by simp⟩, ?_, by simp [hpdb], by simp [hprev], rfl, rfl⟩
        intro n' hn'
        have hnn : n = n' := Option.some.inj hn'
        simp [hnn]
  | some prev =>
    rw [hprev] at h
    cases hss : st.sstype with
    | none => rw [hss] at h; simp [readLocal] at h
    | some cls =>
      rw [hss] at h
      simp only [readLocal] at h
      by_cases hcond : cls ≠ prev ∨ cb = true
      · rw [if_pos hcond] at h
        cases hch : st.chain with
        | none => rw [closeSeg_chain, hch] at h; simp [readLocal] at h
        | some ch =>
          rw [closeSeg_chain, hch] at h
          cases hpdb : st.pdb_res_num with
          | none => rw [closeSeg_pdb, hpdb] at h; simp [readLocal] at h
          | some n =>
            rw [closeSeg_pdb, hpdb] at h
            simp only [readLocal, Except.ok.injEq] at h
            subst h
            obtain ⟨hs2, hb2⟩ := closeSeg_preserves prev hses hbd (hcurOk prev hprev)
            refine ⟨hs2, hb2, ⟨le_refl n, by simp⟩, ?_,
              by simp [closeSeg_pdb, hpdb],
              by simp [closeSeg_prev_sstype, hprev],
              by simp [closeSeg_sstype, hss],
              by simp [closeSeg_beta_id]⟩
            intro n' hn'
            have hnn : n = n' := Option.some.inj hn'
            simp [hnn]
      · rw [if_neg hcond] at h
        cases hpdb : st.pdb_res_num with
        | none => rw [hpdb] at h; simp [readLocal] at h
        | some n =>
          rw [hpdb] at h
          simp only [readLocal, Except.ok.injEq] at h
          subst h
          obtain ⟨hc1, hc2'⟩ := hcurOk prev hprev
          refine ⟨hses, hbd, ⟨?_, by simpa using hc2'⟩, ?_,
            by simp [hpdb], by simp [hprev], rfl, rfl⟩
          · exact le_trans hc1 (hcur2 prev n hprev hpdb)
          · intro n' hn'
            have hnn : n = n' := Option.some.inj hn'
            simp [hnn]

theorem dssp_tail_preserves {st st3 : DsspState} {cb : Bool}
    (h : dssp_tail st cb = Except.ok st3) :
    st3.sses = st.sses ∧ st3.beta_dict = st.beta_dict ∧ st3.cur_sse = st.cur_sse ∧
    st3.pdb_res_num = st.pdb_res_num ∧
    ((cb = true ∧ st3.prev_sstype = none) ∨ (cb = false ∧ st3.prev_sstype = st.sstype)) := by
  unfold dssp_tail at h
  cases cb with
  | true =>
    simp only [if_pos, Except.ok.injEq] at h
    subst h
    simp
  | false =>
    simp only [Bool.false_eq_true, if_false] at h
    cases hss : st.sstype with
    | none => rw [hss] at h; simp [readLocal] at h
    | some cls =>
      rw [hss] at h
      cases hb : st.beta_id with
      | none => rw [hb] at h; simp [readLocal] at h
      | some bid =>
        rw [hb] at h
        simp only [readLocal, Except.ok.injEq] at h
        subst h
        simp [hss]

theorem dssp_row_preserves {st st' : DsspState} {line : PyStr} {c9 : Char}
    (hses : SsesOk st.sses) (hbd : BetaDictOk st.beta_dict)
    (hcur : ∀ prev, st.prev_sstype = some prev →
      SegOk st.cur_sse ∧ st.pdb_res_num = some st.cur_sse.residue_tuple.2)
    (hmono : ∀ n, lineResNum line = some n → ∀ m, st.pdb_res_num = some m → m ≤ n)
    (hlen : ¬ (pySplit line).length < 2)
    (hnr : ¬ (pySplit line).get? 1 = some residueTok)
    (h9 : pyGet line 9 = Except.ok c9) (hc9 : c9 ≠ ' ')
    (hrow : dssp_row st line = Except.ok st') :
    StateOk st' ∧ ∃ n, lineResNum line = some n ∧ st'.pdb_res_num = some n := by
  unfold dssp_row at hrow
  cases hg : gatherRow line with
  | error e => rw [hg] at hrow; simp at hrow
  | ok q =>
    obtain ⟨n, ch, cls, bid⟩ := q
    rw [hg] at hrow
    replace hrow : dssp_row_core st n ch cls bid = Except.ok st' := hrow
    unfold dssp_row_core at hrow
    obtain ⟨h5, h11, h33⟩ := gatherRow_parts hg
    have hres : lineResNum line = some n := by
      unfold lineResNum
      rw [if_neg hlen, if_neg hnr, h9]
      simp [hc9, h5]
    cases hdec : dssp_decide { st with
        pdb_res_num := some n, chain := some ch,
        sstype := some cls, beta_id := some bid } false with
    | error e => rw [hdec] at hrow; simp at hrow
    | ok st2 =>
      rw [hdec] at hrow
      replace hrow : dssp_tail st2 false = Except.ok st' := hrow
      obtain ⟨hses2, hbd2, hsg2, hc2, hpdb2, hpr2, hss2, hbi2⟩ :=
        dssp_decide_preserves { st with
            pdb_res_num := some n, chain := some ch,
            sstype := some cls, beta_id := some bid } st2 false
          (by simpa using hses) (by simpa using hbd)
          (fun p hp => (hcur p (by simpa using hp)).1)
          (fun p m hp hm => by
            have hm' : n = m := by simpa using hm
            subst hm'
            exact hmono n hres st.cur_sse.residue_tuple.2 (hcur p (by simpa using hp)).2)
          hdec
      obtain ⟨hs3, hb3, hc3, hp3, hpr3⟩ := dssp_tail_preserves hrow
      rcases hpr3 with ⟨hcb, _⟩ | ⟨_, hpr3⟩
      · exact absurd hcb (by simp)
      have h2n : st2.cur_sse.residue_tuple.2 = n := hc2 n rfl
      refine ⟨⟨?_, ?_, ?_⟩, n, hres, ?_⟩
      · rw [hs3]; exact hses2
      · rw [hb3]; exact hbd2
      · intro p hp
        refine ⟨by rw [hc3]; exact hsg2, ?_⟩
        rw [hp3, hc3, hpdb2, h2n]
      · rw [hp3, hpdb2]

theorem dssp_step_preserves_ok (limit : PyStr) (st st' : DsspState) (line : PyStr)
    (hok : StateOk st)
    (hmono : ∀ n, lineResNum line = some n → ∀ m, st.pdb_res_num = some m → m ≤ n)
    (hstep : dssp_step limit st line = Except.ok st') :
    StateOk st' ∧
    (st'.pdb_res_num = st.pdb_res_num ∨
      ∃ n, lineResNum line = some n ∧ st'.pdb_res_num = some n) := by
  obtain ⟨hses, hbd, hcur⟩ := hok
  unfold dssp_step at hstep
  by_cases hlen : (pySplit line).length < 2
  · rw [if_pos hlen] at hstep
    simp only [Except.ok.injEq] at hstep
    subst hstep
    exact ⟨⟨hses, hbd, hcur⟩, Or.inl rfl⟩
  rw [if_neg hlen] at hstep
  by_cases hnr : (pySplit line).get? 1 = some residueTok
  · rw [if_pos hnr] at hstep
    simp only [Except.ok.injEq] at hstep
    subst hstep
    exact ⟨⟨hses, hbd, hcur⟩, Or.inl rfl⟩
  rw [if_neg hnr] at hstep
  by_cases hstart : st.start = false
  · rw [if_pos hstart] at hstep
    simp only [Except.ok.injEq] at hstep
    subst hstep
    exact ⟨⟨hses, hbd, hcur⟩, Or.inl rfl⟩
  rw [if_neg hstart] at hstep
  cases h9 : pyGet line 9 with
  | error e => rw [h9] at hstep; simp at hstep
  | ok c9 =>
    rw [h9] at hstep
    replace hstep :
        (if c9 = ' ' then
          match dssp_decide st true with
          | Except.error e => Except.error e
          | Except.ok st2 => dssp_tail st2 true
        else
          if limit ≠ [] then
            match pyGet line 11 with
            | Except.error e => Except.error e
            | Except.ok c11 => if c11 ∈ limit then dssp_row st line else Except.ok st
          else dssp_row st line) = Except.ok st' := hstep
    by_cases hc9 : c9 = ' '
    · rw [if_pos hc9] at hstep
      cases hdec : dssp_decide st true with
      | error e => rw [hdec] at hstep; simp at hstep
      | ok st2 =>
        rw [hdec] at hstep
        replace hstep : dssp_tail st2 true = Except.ok st' := hstep
        obtain ⟨hses2, hbd2, hsg2, hc2, hpdb2, hpr2, hss2, hbi2⟩ :=
          dssp_decide_preserves st st2 true hses hbd (fun p hp => (hcur p hp).1)
            (fun p m hp hm =>
              le_of_eq (Option.some.inj ((hcur p hp).2.symm.trans hm))) hdec
        obtain ⟨hs3, hb3, hc3, hp3, hpr3⟩ := dssp_tail_preserves hstep
        rcases hpr3 with ⟨_, hnone⟩ | ⟨hf, _⟩
        · refine ⟨⟨?_, ?_, ?_⟩, Or.inl (hp3.trans hpdb2)⟩
          · rw [hs3]; exact hses2
          · rw [hb3]; exact hbd2
          · intro p hp
            rw [hnone] at hp
            cases hp
        · cases hf
    · rw [if_neg hc9] at hstep
      by_cases hlim : limit ≠ []
      · rw [if_pos hlim] at hstep
        cases h11 : pyGet line 11 with
        | error e => rw [h11] at hstep; simp at hstep
        | ok c11 =>
          rw [h11] at hstep
          replace hstep :
              (if c11 ∈ limit then dssp_row st line else Except.ok st) =
                Except.ok st' := hstep
          by_cases hin : c11 ∈ limit
          · rw [if_pos hin] at hstep
            obtain ⟨h1, h2⟩ :=
              dssp_row_preserves hses hbd hcur hmono hlen hnr h9 hc9 hstep
            exact ⟨h1, Or.inr h2⟩
          · rw [if_neg hin] at hstep
            simp only [Except.ok.injEq] at hstep
            subst hstep
            exact ⟨⟨hses, hbd, hcur⟩, Or.inl rfl⟩
      · rw [if_neg hlim] at hstep
        obtain ⟨h1, h2⟩ :=
          dssp_row_preserves hses hbd hcur hmono hlen hnr h9 hc9 hstep
        exact ⟨h1, Or.inr h2⟩

theorem dssp_run_ok (limit : PyStr) (lines : List PyStr) :
    ∀ st st' : DsspState, StateOk st →
    List.Pairwise (fun a b => a ≤ b) (lines.filterMap lineResNum) →
    (∀ m, st.pdb_res_num = some m → ∀ n ∈ lines.filterMap lineResNum, m ≤ n) →
    dssp_run limit st lines = Except.ok st' → StateOk st' := by
  induction lines with
  | nil =>
    intro st st' hok _ _ h
    unfold dssp_run at h
    simp only [Except.ok.injEq] at h
    subst h
    exact hok
  | cons l ls ih =>
    intro st st' hok hpw hfut hrun
    unfold dssp_run at hrun
    cases hstep : dssp_step limit st l with
    | error e => rw [hstep] at hrun; simp at hrun
    | ok st2 =>
      rw [hstep] at hrun
      have hmono : ∀ n, lineResNum l = some n → ∀ m, st.pdb_res_num = some m → m ≤ n := by
        intro n hn m hm
        exact hfut m hm n (by rw [List.filterMap_cons, hn]; exact List.mem_cons_self _ _)
      obtain ⟨hok2, hpdb2⟩ := dssp_step_preserves_ok limit st st2 l hok hmono hstep
      cases hln : lineResNum l with
      | none =>
        have hfm : (l :: ls).filterMap lineResNum = ls.filterMap lineResNum := by
          rw [List.filterMap_cons, hln]
        rw [hfm] at hpw
        refine ih st2 st' hok2 hpw ?_ hrun
        intro m hm n hn
        rcases hpdb2 with heq | ⟨n0, hn0, _⟩
        · exact hfut m (heq.symm.trans hm) n (by rw [hfm]; exact hn)
        · rw [hln] at hn0; cases hn0
      | some nres =>
        have hfm : (l :: ls).filterMap lineResNum = nres :: ls.filterMap lineResNum := by
          rw [List.filterMap_cons, hln]
        rw [hfm] at hpw
        refine ih st2 st' hok2 (List.Pairwise.of_cons hpw) ?_ hrun
        intro m hm n hn
        rcases hpdb2 with heq | ⟨n0, hn0, hp2⟩
        · exact hfut m (heq.symm.trans hm) n (by rw [hfm]; exact List.mem_cons_of_mem _ hn)
        · have hne : n0 = nres := by rw [hln] at hn0; exact (Option.some.inj hn0).symm
          subst hne
          have hm' : m = n0 := (Option.some.inj (hp2.symm.trans hm)).symm
          subst hm'
          exact (List.pairwise_cons.mp hpw).1 n hn

theorem dssp_final_ok (st : DsspState) (hok : StateOk st) :
    ∀ grp ∈ (dssp_final st).helix ++ (dssp_final st).beta ++ (dssp_final st).loop,
      ∀ seg ∈ grp, SegOk seg := by
  obtain ⟨hses, hbd, hcur⟩ := hok
  have key : ∀ s2 : DsspState, SsesOk s2.sses → BetaDictOk s2.beta_dict →
      ∀ grp ∈ (gatherBetas s2).helix ++ (gatherBetas s2).beta ++ (gatherBetas s2).loop,
        ∀ seg ∈ grp, SegOk seg := by
    intro s2 hs hb grp hg seg hsg
    rw [gatherBetas_helix, gatherBetas_beta, gatherBetas_loop] at hg
    simp only [List.mem_append] at hg
    rcases hg with (hg | (hg | hg)) | hg
    · exact hs grp (by simp [hg]) seg hsg
    · exact hs grp (by simp [hg]) seg hsg
    · obtain ⟨kv, hkv, rfl⟩ := List.mem_map.mp hg
      exact hb kv hkv seg hsg
    · exact hs grp (by simp [hg]) seg hsg
  cases hprev : st.prev_sstype with
  | none =>
    unfold dssp_final
    rw [hprev]
    exact key st hses hbd
  | some prev =>
    unfold dssp_final
    rw [hprev]
    have hcur1 := hcur prev hprev
    cases prev with
    | helix =>
      refine key _ ?_ hbd
      intro grp hg seg hsg
      rcases mem_add_subsequence SSEClass.helix [st.cur_sse] st.sses grp (by simpa using hg)
        with h0 | rfl
      · exact hses grp h0 seg hsg
      · simp at hsg
        exact hsg ▸ hcur1.1
    | loop =>
      refine key _ ?_ hbd
      intro grp hg seg hsg
      rcases mem_add_subsequence SSEClass.loop [st.cur_sse] st.sses grp (by simpa using hg)
        with h0 | rfl
      · exact hses grp h0 seg hsg
      · simp at hsg
        exact hsg ▸ hcur1.1
    | beta =>
      refine key _ hses ?_
      intro kv hkv seg hsg
      rcases mem_assocAppend st.beta_dict st.prev_beta_id st.cur_sse kv hkv seg hsg with
        ⟨kv0, h0, h1⟩ | h1
      · exact hbd kv0 h0 seg h1
      · exact h1 ▸ hcur1.1

/-- All flushed segments of a `SubsequenceData` carry a non-empty chain. -/
def SsesChain (d : SubsequenceData) : Prop :=
  ∀ grp ∈ d.helix ++ d.beta ++ d.loop, ∀ seg ∈ grp, seg.chain ≠ []

/-- All strands parked in a beta dictionary carry a non-empty chain. -/
def BetaDictChain (bd : List (Option Char × List SegEntry)) : Prop :=
  ∀ kv ∈ bd, ∀ seg ∈ kv.2, seg.chain ≠ []

/-- The unconditional chain invariant: everything flushed has a non-empty
chain and, while a segment is open, so does the open segment.  Unlike
`StateOk`, it needs no hypothesis on the residue numbers. -/
def ChainInv (st : DsspState) : Prop :=
  SsesChain st.sses ∧ BetaDictChain st.beta_dict ∧
  (∀ prev, st.prev_sstype = some prev → st.cur_sse.chain ≠ [])

theorem closeSeg_preserves_chain {st : DsspState} (prev : SSEClass)
    (hses : SsesChain st.sses) (hbd : BetaDictChain st.beta_dict)
    (hcur : st.cur_sse.chain ≠ []) :
    SsesChain (closeSeg prev st).sses ∧ BetaDictChain (closeSeg prev st).beta_dict := by
  cases prev with
  | beta =>
    refine ⟨hses, ?_⟩
    intro kv hkv seg hs
    rcases mem_assocAppend st.beta_dict st.prev_beta_id st.cur_sse kv hkv seg hs with
      ⟨kv0, h0, h1⟩ | h1
    · exact hbd kv0 h0 seg h1
    · exact h1 ▸ hcur
  | helix =>
    refine ⟨?_, hbd⟩
    intro grp hg seg hs
    rcases mem_add_subsequence SSEClass.helix [st.cur_sse] st.sses grp hg with h0 | rfl
    · exact hses grp h0 seg hs
    · simp at hs
      exact hs ▸ hcur
  | loop =>
    refine ⟨?_, hbd⟩
    intro grp hg seg hs
    rcases mem_add_subsequence SSEClass.loop [st.cur_sse] st.sses grp hg with h0 | rfl
    · exact hses grp h0 seg hs
    · simp at hs
      exact hs ▸ hcur

theorem dssp_decide_preserves_chain (st st2 : DsspState) (cb : Bool)
    (hses : SsesChain st.sses) (hbd : BetaDictChain st.beta_dict)
    (hcurOk : ∀ prev, st.prev_sstype = some prev → st.cur_sse.chain ≠ [])
    (h : dssp_decide st cb = Except.ok st2) :
    SsesChain st2.sses ∧ BetaDictChain st2.beta_dict ∧ st2.cur_sse.chain ≠ [] := by
  unfold dssp_decide at h
  cases hprev : st.prev_sstype with
  | none =>
    rw [hprev] at h
    cases hch : st.chain with
    | none => rw [hch] at h; simp [readLocal] at h
    | some ch =>
      rw [hch] at h
      cases hpdb : st.pdb_res_num with
      | none => rw [hpdb] at h; simp [readLocal] at h
      | some n =>
        rw [hpdb] at h
        simp only [readLocal, Except.ok.injEq] at h
        subst h
        exact ⟨hses, hbd, by simp⟩
  | some prev =>
    rw [hprev] at h
    cases hss : st.sstype with
    | none => rw [hss] at h; simp [readLocal] at h
    | some cls =>
      rw [hss] at h
      simp only [readLocal] at h
      by_cases hcond : cls ≠ prev ∨ cb = true
      · rw [if_pos hcond] at h
        cases hch : st.chain with
        | none => rw [closeSeg_chain, hch] at h; simp [readLocal] at h
        | some ch =>
          rw [closeSeg_chain, hch] at h
          cases hpdb : st.pdb_res_num with
          | none => rw [closeSeg_pdb, hpdb] at h; simp [readLocal] at h
          | some n =>
            rw [closeSeg_pdb, hpdb] at h
            simp only [readLocal, Except.ok.injEq] at h
            subst h
            obtain ⟨hs2, hb2⟩ :=
              closeSeg_preserves_chain prev hses hbd (hcurOk prev hprev)
            exact ⟨hs2, hb2, by simp⟩
      · rw [if_neg hcond] at h
        cases hpdb : st.pdb_res_num with
        | none => rw [hpdb] at h; simp [readLocal] at h
        | some n =>
          rw [hpdb] at h
          simp only [readLocal, Except.ok.injEq] at h
          subst h
          exact ⟨hses, hbd, by simpa using hcurOk prev hprev⟩

theorem dssp_row_preserves_chain {st st' : DsspState} {line : PyStr}
    (hses : SsesChain st.sses) (hbd : BetaDictChain st.beta_dict)
    (hcurOk : ∀ prev, st.prev_sstype = some prev → st.cur_sse.chain ≠ [])
    (hrow : dssp_row st line = Except.ok st') :
    ChainInv st' := by
  unfold dssp_row at hrow
  cases hg : gatherRow line with
  | error e => rw [hg] at hrow; simp at hrow
  | ok q =>
    obtain ⟨n, ch, cls, bid⟩ := q
    rw [hg] at hrow
    replace hrow : dssp_row_core st n ch cls bid = Except.ok st' := hrow
    unfold dssp_row_core at hrow
    cases hdec : dssp_decide { st with
        pdb_res_num := some n, chain := some ch,
        sstype := some cls, beta_id := some bid } false with
    | error e => rw [hdec] at hrow; simp at hrow
    | ok st2 =>
      rw [hdec] at hrow
      replace hrow : dssp_tail st2 false = Except.ok st' := hrow
      obtain ⟨hs2, hb2, hc2⟩ :=
        dssp_decide_preserves_chain { st with
            pdb_res_num := some n, chain := some ch,
            sstype := some cls, beta_id := some bid } st2 false
          (by simpa using hses) (by simpa using hbd)
          (fun p hp => by simpa using hcurOk p (by simpa using hp)) hdec
      obtain ⟨t1, t2, t3, t4, t5⟩ := dssp_tail_preserves hrow
      exact ⟨by rw [t1]; exact hs2, by rw [t2]; exact hb2,
        fun p hp => by rw [t3]; exact hc2⟩

theorem dssp_step_preserves_chain (limit : PyStr) (st st' : DsspState) (line : PyStr)
    (hinv : ChainInv st)
    (hstep : dssp_step limit st line = Except.ok st') :
    ChainInv st' := by
  obtain ⟨hses, hbd, hcur⟩ := hinv
  unfold dssp_step at hstep
  by_cases hlen : (pySplit line).length < 2
  · rw [if_pos hlen] at hstep
    simp only [Except.ok.injEq] at hstep
    subst hstep
    exact ⟨hses, hbd, hcur⟩
  rw [if_neg hlen] at hstep
  by_cases hnr : (pySplit line).get? 1 = some residueTok
  · rw [if_pos hnr] at hstep
    simp only [Except.ok.injEq] at hstep
    subst hstep
    exact ⟨hses, hbd, hcur⟩
  rw [if_neg hnr] at hstep
  by_cases hstart : st.start = false
  · rw [if_pos hstart] at hstep
    simp only [Except.ok.injEq] at hstep
    subst hstep
    exact ⟨hses, hbd, hcur⟩
  rw [if_neg hstart] at hstep
  cases h9 : pyGet line 9 with
  | error e => rw [h9] at hstep; simp at hstep
  | ok c9 =>
    rw [h9] at hstep
    replace hstep :
        (if c9 = ' ' then
          match dssp_decide st true with
          | Except.error e => Except.error e
          | Except.ok st2 => dssp_tail st2 true
        else
          if limit ≠ [] then
            match pyGet line 11 with
            | Except.error e => Except.error e
            | Except.ok c11 => if c11 ∈ limit then dssp_row st line else Except.ok st
          else dssp_row st line) = Except.ok st' := hstep
    by_cases hc9 : c9 = ' '
    · rw [if_pos hc9] at hstep
      cases hdec : dssp_decide st true with
      | error e => rw [hdec] at hstep; simp at hstep
      | ok st2 =>
        rw [hdec] at hstep
        replace hstep : dssp_tail st2 true = Except.ok st' := hstep
        obtain ⟨hs2, hb2, hc2⟩ := dssp_decide_preserves_chain st st2 true hses hbd hcur hdec
        obtain ⟨t1, t2, t3, t4, t5⟩ := dssp_tail_preserves hstep
        exact ⟨by rw [t1]; exact hs2, by rw [t2]; exact hb2,
          fun p hp => by rw [t3]; exact hc2⟩
    · rw [if_neg hc9] at hstep
      by_cases hlim : limit ≠ []
      · rw [if_pos hlim] at hstep
        cases h11 : pyGet line 11 with
        | error e => rw [h11] at hstep; simp at hstep
        | ok c11 =>
          rw [h11] at hstep
          replace hstep :
              (if c11 ∈ limit then dssp_row st line else Except.ok st) =
                Except.ok st' := hstep
          by_cases hin : c11 ∈ limit
          · rw [if_pos hin] at hstep
            exact dssp_row_preserves_chain hses hbd hcur hstep
          · rw [if_neg hin] at hstep
            simp only [Except.ok.injEq] at hstep
            subst hstep
            exact ⟨hses, hbd, hcur⟩
      · rw [if_neg hlim] at hstep
        exact dssp_row_preserves_chain hses hbd hcur hstep

theorem dssp_run_chain (limit : PyStr) :
    ∀ (lines : List PyStr) (st st' : DsspState), ChainInv st →
      dssp_run limit st lines = Except.ok st' → ChainInv st' := by
  intro lines
  induction lines with
  | nil =>
    intro st st' hinv h
    unfold dssp_run at h
    simp only [Except.ok.injEq] at h
    subst h
    exact hinv
  | cons l ls ih =>
    intro st st' hinv hrun
    unfold dssp_run at hrun
    cases hstep : dssp_step limit st l with
    | error e => rw [hstep] at hrun; simp at hrun
    | ok st2 =>
      rw [hstep] at hrun
      exact ih st2 st' (dssp_step_preserves_chain limit st st2 l hinv hstep) hrun

theorem dssp_final_chain (st : DsspState) (hinv : ChainInv st) :
    ∀ grp ∈ (dssp_final st).helix ++ (dssp_final st).beta ++ (dssp_final st).loop,
      ∀ seg ∈ grp, seg.chain ≠ [] := by
  obtain ⟨hses, hbd, hcur⟩ := hinv
  have key : ∀ s2 : DsspState, SsesChain s2.sses → BetaDictChain s2.beta_dict →
      ∀ grp ∈ (gatherBetas s2).helix ++ (gatherBetas s2).beta ++ (gatherBetas s2).loop,
        ∀ seg ∈ grp, seg.chain ≠ [] := by
    intro s2 hs hb grp hg seg hsg
    rw [gatherBetas_helix, gatherBetas_beta, gatherBetas_loop] at hg
    simp only [List.mem_append] at hg
    rcases hg with (hg | (hg | hg)) | hg
    · exact hs grp (by simp [hg]) seg hsg
    · exact hs grp (by simp [hg]) seg hsg
    · obtain ⟨kv, hkv, rfl⟩ := List.mem_map.mp hg
      exact hb kv hkv seg hsg
    · exact hs grp (by simp [hg]) seg hsg
  cases hprev : st.prev_sstype with
  | none =>
    unfold dssp_final
    rw [hprev]
    exact key st hses hbd
  | some prev =>
    unfold dssp_final
    rw [hprev]
    have hcur1 := hcur prev hprev
    cases prev with
    | helix =>
      refine key _ ?_ hbd
      intro grp hg seg hsg
      rcases mem_add_subsequence SSEClass.helix [st.cur_sse] st.sses grp (by simpa using hg)
        with h0 | rfl
      · exact hses grp h0 seg hsg
      · simp at hsg
        exact hsg ▸ hcur1
    | loop =>
      refine key _ ?_ hbd
      intro grp hg seg hsg
      rcases mem_add_subsequence SSEClass.loop [st.cur_sse] st.sses grp (by simpa using hg)
        with h0 | rfl
      · exact hses grp h0 seg hsg
      · simp at hsg
        exact hsg ▸ hcur1
    | beta =>
      refine key _ hses ?_
      intro kv hkv seg hsg
      rcases mem_assocAppend st.beta_dict st.prev_beta_id st.cur_sse kv hkv seg hsg with
        ⟨kv0, h0, h1⟩ | h1
      · exact hbd kv0 h0 seg h1
      · exact h1 ▸ hcur1

/-- C4 (amended): for every successful parse, every output segment (helix,
beta and loop alike) carries a non-empty (one-character) chain identifier —
the chain of the row that opened it — with no further hypothesis; and when
the input's plausible data rows carry non-decreasing residue numbers, every
output segment also satisfies `start <= end`. -/
theorem parse_dssp_ranges (lines : List PyStr) (limit : PyStr) (d : SubsequenceData)
    (h : parse_dssp lines limit = Except.ok d) :
    (∀ grp ∈ d.helix ++ d.beta ++ d.loop, ∀ seg ∈ grp, seg.chain ≠ []) ∧
    (List.Pairwise (fun a b => a ≤ b) (lines.filterMap lineResNum) →
      ∀ grp ∈ d.helix ++ d.beta ++ d.loop, ∀ seg ∈ grp,
        seg.residue_tuple.1 ≤ seg.residue_tuple.2) := by
  unfold parse_dssp at h
  cases hrun : dssp_run limit dsspInit lines with
  | error e => rw [hrun] at h; simp at h
  | ok st =>
    rw [hrun] at h
    simp only [Except.ok.injEq] at h
    subst h
    constructor
    · have hinit : ChainInv dsspInit := by
        refine ⟨?_, ?_, ?_⟩
        · intro grp hg
          simp [dsspInit] at hg
        · intro kv hkv
          simp [dsspInit] at hkv
        · intro p hp
          simp [dsspInit] at hp
      exact dssp_final_chain st (dssp_run_chain limit lines dsspInit st hinit hrun)
    · intro hmono
      have hinit : StateOk dsspInit := by
        refine ⟨?_, ?_, ?_⟩
        · intro grp hg
          simp [dsspInit] at hg
        · intro kv hkv
          simp [dsspInit] at hkv
        · intro p hp
          simp [dsspInit] at hp
      have hok := dssp_run_ok limit lines dsspInit st hinit hmono
        (fun m hm => by simp [dsspInit] at hm) hrun
      exact fun grp hg seg hs => (dssp_final_ok st hok grp hg seg hs).1

/-- Witness for `parse_dssp_ranges`: the chain conjunct is applied to the
non-monotone file whose only segment is (10, 5) — the parse succeeds and
the chain is still non-empty with no monotonicity hypothesis — and the
range conjunct to a monotone two-row helix file. -/
theorem parse_dssp_ranges_witness :
    (['A'] : PyStr) ≠ [] ∧ (1 : Int) ≤ 2 :=
  ⟨(parse_dssp_ranges [hdrLine, dsspRow 10 'A' 'H' ' ', dsspRow 5 'A' 'H' ' '] []
      ⟨[[⟨['A'], (10, 5)⟩]], [], []⟩ (by decide)).1
    [⟨['A'], (10, 5)⟩] (by decide) ⟨['A'], (10, 5)⟩ (by decide),
   (parse_dssp_ranges [hdrLine, dsspRow 1 'A' 'H' ' ', dsspRow 2 'A' 'H' ' '] []
      ⟨[[⟨['A'], (1, 2)⟩]], [], []⟩ (by decide)).2 (by decide)
    [⟨['A'], (1, 2)⟩] (by decide) ⟨['A'], (1, 2)⟩ (by decide)⟩

/-! ## Closure-event instrumentation

To relate `parse_dssp`'s output to the encounter order of segment
closures, the loop is re-run with instrumentation: each step additionally
reports the closure event it emits — the (class, sheet label, segment)
triple of the segment it closes, if any.  The instrumented functions
differ from the originals only in this extra component (proved by the
projection lemmas below). -/

/-- A closure event: the closed segment's class, the `prev_beta_id` under
which a beta strand is filed, and the segment itself. -/
abbrev DsspEvent := SSEClass × Option Char × SegEntry

/-- `dssp_decide`, also reporting the closure event (if any). -/
def dssp_decide_ev (st : DsspState) (chain_break : Bool) :
    Except PyErr (DsspState × List DsspEvent) :=
  match st.prev_sstype with
  | none =>
    match readLocal st.chain with
    | Except.error e => Except.error e
    | Except.ok ch =>
      match readLocal st.pdb_res_num with
      | Except.error e => Except.error e
      | Except.ok n => Except.ok ({ st with cur_sse := ⟨[ch], (n, n)⟩ }, [])
  | some prev =>
    match readLocal st.sstype with
    | Except.error e => Except.error e
    | Except.ok cls =>
      if cls ≠ prev ∨ chain_break then
        match readLocal (closeSeg prev st).chain with
        | Except.error e => Except.error e
        | Except.ok ch =>
          match readLocal (closeSeg prev st).pdb_res_num with
          | Except.error e => Except.error e
          | Except.ok n =>
            Except.ok ({ closeSeg prev st with cur_sse := ⟨[ch], (n, n)⟩ },
              [(prev, st.prev_beta_id, st.cur_sse)])
      else
        match readLocal st.pdb_res_num with
        | Except.error e => Except.error e
        | Except.ok n =>
          Except.ok
            ({ st with cur_sse := ⟨st.cur_sse.chain, (st.cur_sse.residue_tuple.1, n)⟩ }, [])

/-- `dssp_row_core`, also reporting the closure event. -/
def dssp_row_core_ev (st : DsspState) (n : Int) (ch : Char) (cls : SSEClass) (bid : Char) :
    Except PyErr (DsspState × List DsspEvent) :=
  match dssp_decide_ev { st with
      pdb_res_num := some n, chain := some ch,
      sstype := some cls, beta_id := some bid } false with
  | Except.error e => Except.error e
  | Except.ok (st2, evs) =>
    match dssp_tail st2 false with
    | Except.error e => Except.error e
    | Except.ok st3 => Except.ok (st3, evs)

/-- `dssp_row`, also reporting the closure event. -/
def dssp_row_ev (st : DsspState) (line : PyStr) :
    Except PyErr (DsspState × List DsspEvent) :=
  match gatherRow line with
  | Except.error e => Except.error e
  | Except.ok (n, ch, cls, bid) => dssp_row_core_ev st n ch cls bid

/-- `dssp_step`, also reporting the closure event. -/
def dssp_step_ev (limit_to_chains : PyStr) (st : DsspState) (line : PyStr) :
    Except PyErr (DsspState × List DsspEvent) :=
  let fields := pySplit line
  if fields.length < 2 then Except.ok (st, [])
  else if fields.get? 1 = some residueTok then Except.ok ({ st with start := true }, [])
  else if st.start = false then Except.ok (st, [])
  else
    match pyGet line 9 with
    | Except.error e => Except.error e
    | Except.ok c9 =>
      if c9 = ' ' then
        match dssp_decide_ev st true with
        | Except.error e => Except.error e
        | Except.ok (st2, evs) =>
          match dssp_tail st2 true with
          | Except.error e => Except.error e
          | Except.ok st3 => Except.ok (st3, evs)
      else if limit_to_chains ≠ [] then
        match pyGet line 11 with
        | Except.error e => Except.error e
        | Except.ok c11 =>
          if c11 ∈ limit_to_chains then dssp_row_ev st line else Except.ok (st, [])
      else dssp_row_ev st line

/-- `dssp_run`, also collecting the closure events in encounter order. -/
def dssp_run_ev (limit : PyStr) : DsspState → List PyStr →
    Except PyErr (DsspState × List DsspEvent)
  | st, [] => Except.ok (st, [])
  | st, l :: ls =>
    match dssp_step_ev limit st l with
    | Except.error e => Except.error e
    | Except.ok (st2, evs1) =>
      match dssp_run_ev limit st2 ls with
      | Except.error e => Except.error e
      | Except.ok (st3, evs2) => Except.ok (st3, evs1 ++ evs2)

theorem dssp_decide_ev_fst (st : DsspState) (cb : Bool) :
    dssp_decide st cb = Except.map Prod.fst (dssp_decide_ev st cb) := by
  unfold dssp_decide dssp_decide_ev
  cases hprev : st.prev_sstype with
  | none =>
    cases st.chain <;> cases st.pdb_res_num <;> simp [readLocal, Except.map]
  | some prev =>
    cases st.sstype with
    | none => simp [readLocal, Except.map]
    | some cls =>
      simp only [readLocal]
      by_cases hc : cls ≠ prev ∨ cb = true
      · rw [if_pos hc, if_pos hc]
        cases (closeSeg prev st).chain <;> cases (closeSeg prev st).pdb_res_num <;>
          simp [readLocal, Except.map]
      · rw [if_neg hc, if_neg hc]
        cases st.pdb_res_num <;> simp [readLocal, Except.map]

theorem dssp_row_core_ev_fst (st : DsspState) (n : Int) (ch : Char) (cls : SSEClass)
    (bid : Char) :
    dssp_row_core st n ch cls bid = Except.map Prod.fst (dssp_row_core_ev st n ch cls bid) := by
  unfold dssp_row_core dssp_row_core_ev
  rw [dssp_decide_ev_fst]
  cases hdec : dssp_decide_ev { st with
      pdb_res_num := some n, chain := some ch,
      sstype := some cls, beta_id := some bid } false with
  | error e => simp [Except.map]
  | ok p =>
    obtain ⟨st2, evs⟩ := p
    simp only [Except.map]
    cases dssp_tail st2 false <;> simp

theorem dssp_row_ev_fst (st : DsspState) (line : PyStr) :
    dssp_row st line = Except.map Prod.fst (dssp_row_ev st line) := by
  unfold dssp_row dssp_row_ev
  cases gatherRow line with
  | error e => simp [Except.map]
  | ok q =>
    obtain ⟨n, ch, cls, bid⟩ := q
    exact dssp_row_core_ev_fst st n ch cls bid

theorem dssp_step_ev_fst (limit : PyStr) (st : DsspState) (line : PyStr) :
    dssp_step limit st line = Except.map Prod.fst (dssp_step_ev limit st line) := by
  unfold dssp_step dssp_step_ev
  by_cases hlen : (pySplit line).length < 2
  · rw [if_pos hlen, if_pos hlen]; simp [Except.map]
  rw [if_neg hlen, if_neg hlen]
  by_cases hnr : (pySplit line).get? 1 = some residueTok
  · rw [if_pos hnr, if_pos hnr]; simp [Except.map]
  rw [if_neg hnr, if_neg hnr]
  by_cases hstart : st.start = false
  · rw [if_pos hstart, if_pos hstart]; simp [Except.map]
  rw [if_neg hstart, if_neg hstart]
  cases pyGet line 9 with
  | error e => simp [Except.map]
  | ok c9 =>
    by_cases hc9 : c9 = ' '
    · simp only [if_pos hc9]
      rw [dssp_decide_ev_fst]
      cases dssp_decide_ev st true with
      | error e => simp [Except.map]
      | ok p =>
        obtain ⟨st2, evs⟩ := p
        simp only [Except.map]
        cases dssp_tail st2 true <;> simp
    · simp only [if_neg hc9]
      by_cases hlim : limit ≠ []
      · rw [if_pos hlim, if_pos hlim]
        cases pyGet line 11 with
        | error e => simp [Except.map]
        | ok c11 =>
          by_cases hin : c11 ∈ limit
          · simp only [if_pos hin]
            exact dssp_row_ev_fst st line
          · simp only [if_neg hin]
            simp [Except.map]
      · rw [if_neg hlim, if_neg hlim]
        exact dssp_row_ev_fst st line

theorem dssp_run_ev_fst (limit : PyStr) :
    ∀ (ls : List PyStr) (st : DsspState),
      dssp_run limit st ls = Except.map Prod.fst (dssp_run_ev limit st ls) := by
  intro ls
  induction ls with
  | nil => intro st; simp [dssp_run, dssp_run_ev, Except.map]
  | cons l tl ih =>
    intro st
    unfold dssp_run dssp_run_ev
    rw [dssp_step_ev_fst]
    cases dssp_step_ev limit st l with
    | error e => simp [Except.map]
    | ok p =>
      obtain ⟨st2, evs1⟩ := p
      simp only [Except.map]
      rw [ih st2]
      cases dssp_run_ev limit st2 tl with
      | error e => simp [Except.map]
      | ok q =>
        obtain ⟨st3, evs2⟩ := q
        simp [Except.map]

/-! ## The spec-side view of the trace -/

/-- The helix segments a closure trace emits, in encounter order. -/
def helixSegs (evs : List DsspEvent) : List Subsequence :=
  evs.filterMap (fun e => if e.1 = SSEClass.helix then some [e.2.2] else none)

/-- The loop segments a closure trace emits, in encounter order. -/
def loopSegs (evs : List DsspEvent) : List Subsequence :=
  evs.filterMap (fun e => if e.1 = SSEClass.loop then some [e.2.2] else none)

/-- The (sheet label, strand) pairs a closure trace emits, in encounter
order. -/
def betaPairs (evs : List DsspEvent) : List (Option Char × SegEntry) :=
  evs.filterMap (fun e => if e.1 = SSEClass.beta then some (e.2.1, e.2.2) else none)

/-- Grouping labelled strands: one group per label, groups in the order the
label is first encountered, strands within a group in encounter order. -/
def groupByFirstSeen (ps : List (Option Char × SegEntry)) :
    List (Option Char × List SegEntry) :=
  ps.foldl (fun d p => assocAppend d p.1 p.2) []

/-- The distinct elements of a list, kept in first-occurrence order. -/
def firstSeen (ks : List (Option Char)) : List (Option Char) :=
  ks.foldl (fun acc k => if k ∈ acc then acc else acc ++ [k]) []

/-- Lookup in an association list. -/
def assocLookup (d : List (Option Char × List SegEntry)) (k : Option Char) :
    Option (List SegEntry) :=
  match d with
  | [] => none
  | (k0, vs) :: rest => if k0 = k then some vs else assocLookup rest k

/-- The closure event of the terminal flush, if a segment is still open. -/
def finalEvents (st : DsspState) : List DsspEvent :=
  match st.prev_sstype with
  | none => []
  | some prev => [(prev, st.prev_beta_id, st.cur_sse)]

theorem assocAppend_keys (d : List (Option Char × List SegEntry)) (k : Option Char)
    (v : SegEntry) :
    (assocAppend d k v).map Prod.fst =
      if k ∈ d.map Prod.fst then d.map Prod.fst else d.map Prod.fst ++ [k] := by
  induction d with
  | nil => simp [assocAppend]
  | cons hd tl ih =>
    obtain ⟨k0, vs⟩ := hd
    by_cases hk : k0 = k
    · subst hk
      simp [assocAppend]
    · rw [assocAppend, if_neg hk]
      by_cases hmem : k ∈ tl.map Prod.fst
      · simp [hmem, ih, Ne.symm hk]
      · simp [hmem, ih, Ne.symm hk]

theorem assocLookup_append (d : List (Option Char × List SegEntry)) (k : Option Char)
    (v : SegEntry) (k' : Option Char) :
    assocLookup (assocAppend d k v) k' =
      if k' = k then some (((assocLookup d k).getD []) ++ [v]) else assocLookup d k' := by
  induction d with
  | nil =>
    by_cases hk : k' = k
    · subst hk
      simp [assocAppend, assocLookup]
    · simp [assocAppend, assocLookup, hk, Ne.symm hk]
  | cons hd tl ih =>
    obtain ⟨k0, vs⟩ := hd
    by_cases hk0 : k0 = k
    · subst hk0
      by_cases hk : k' = k0
      · subst hk
        simp [assocAppend, assocLookup]
      · simp [assocAppend, assocLookup, hk, Ne.symm hk]
    · rw [assocAppend, if_neg hk0]
      by_cases hk : k' = k
      · subst hk
        have hne : ¬ k0 = k' := hk0
        simp [assocLookup, hne, ih]
      · by_cases h0' : k0 = k'
        · subst h0'
          simp [assocLookup, ih, hk]
        · simp [assocLookup, h0', ih, hk]

theorem groupBy_keys_from (ps : List (Option Char × SegEntry)) :
    ∀ d : List (Option Char × List SegEntry),
      (ps.foldl (fun d p => assocAppend d p.1 p.2) d).map Prod.fst =
        (ps.map Prod.fst).foldl
          (fun ks k => if k ∈ ks then ks else ks ++ [k]) (d.map Prod.fst) := by
  induction ps with
  | nil => intro d; rfl
  | cons p tl ih =>
    intro d
    rw [List.foldl_cons, List.map_cons, List.foldl_cons, ih, assocAppend_keys]

/-- Keys of the grouping are the labels in first-seen order. -/
theorem groupByFirstSeen_keys (ps : List (Option Char × SegEntry)) :
    (groupByFirstSeen ps).map Prod.fst = firstSeen (ps.map Prod.fst) :=
  groupBy_keys_from ps []

theorem groupBy_lookup_from (ps : List (Option Char × SegEntry)) :
    ∀ (d : List (Option Char × List SegEntry)) (k : Option Char),
      assocLookup (ps.foldl (fun d p => assocAppend d p.1 p.2) d) k =
        (if (ps.filterMap fun p => if p.1 = k then some p.2 else none) = []
         then assocLookup d k
         else some ((assocLookup d k).getD [] ++
           (ps.filterMap fun p => if p.1 = k then some p.2 else none))) := by
  induction ps with
  | nil => intro d k; simp
  | cons p tl ih =>
    intro d k
    rw [List.foldl_cons, ih, List.filterMap_cons]
    by_cases hp : p.1 = k
    · rw [if_pos hp]
      rw [assocLookup_append]
      subst hp
      by_cases hg : (tl.filterMap fun q => if q.1 = p.1 then some q.2 else none) = []
      · simp [hg]
      · simp [hg]
    · rw [if_neg hp]
      rw [assocLookup_append]
      have hk' : ¬ k = p.1 := fun h => hp h.symm
      rw [if_neg hk']

/-- Each label's group collects exactly that label's strands, in encounter
order; labels never seen have no group. -/
theorem groupByFirstSeen_lookup (ps : List (Option Char × SegEntry)) (k : Option Char) :
    assocLookup (groupByFirstSeen ps) k =
      (if (ps.filterMap fun p => if p.1 = k then some p.2 else none) = []
       then none
       else some (ps.filterMap fun p => if p.1 = k then some p.2 else none)) := by
  have h := groupBy_lookup_from ps [] k
  simpa [assocLookup] using h

theorem dssp_decide_ev_effect (st st2 : DsspState) (cb : Bool) (evs : List DsspEvent)
    (h : dssp_decide_ev st cb = Except.ok (st2, evs)) :
    st2.sses.helix = st.sses.helix ++ helixSegs evs ∧
    st2.sses.loop = st.sses.loop ++ loopSegs evs ∧
    st2.sses.beta = st.sses.beta ∧
    st2.beta_dict = (betaPairs evs).foldl (fun d p => assocAppend d p.1 p.2) st.beta_dict := by
  unfold dssp_decide_ev at h
  cases hprev : st.prev_sstype with
  | none =>
    rw [hprev] at h
    cases hch : st.chain with
    | none => rw [hch] at h; simp [readLocal] at h
    | some ch =>
      rw [hch] at h
      cases hpdb : st.pdb_res_num with
      | none => rw [hpdb] at h; simp [readLocal] at h
      | some n =>
        rw [hpdb] at h
        simp only [readLocal, Except.ok.injEq, Prod.mk.injEq] at h
        obtain ⟨h1, h2⟩ := h
        subst h1
        subst h2
        simp [helixSegs, loopSegs, betaPairs]
  | some prev =>
    rw [hprev] at h
    cases hss : st.sstype with
    | none => rw [hss] at h; simp [readLocal] at h
    | some cls =>
      rw [hss] at h
      simp only [readLocal] at h
      by_cases hcond : cls ≠ prev ∨ cb = true
      · rw [if_pos hcond] at h
        cases hch : (closeSeg prev st).chain with
        | none => rw [hch] at h; simp [readLocal] at h
        | some ch =>
          rw [hch] at h
          cases hpdb : (closeSeg prev st).pdb_res_num with
          | none => rw [hpdb] at h; simp [readLocal] at h
          | some n =>
            rw [hpdb] at h
            simp only [readLocal, Except.ok.injEq, Prod.mk.injEq] at h
            obtain ⟨h1, h2⟩ := h
            subst h1
            subst h2
            cases prev <;>
              simp [closeSeg, add_subsequence, helixSegs, loopSegs, betaPairs, assocAppend]
      · rw [if_neg hcond] at h
        cases hpdb : st.pdb_res_num with
        | none => rw [hpdb] at h; simp [readLocal] at h
        | some n =>
          rw [hpdb] at h
          simp only [readLocal, Except.ok.injEq, Prod.mk.injEq] at h
          obtain ⟨h1, h2⟩ := h
          subst h1
          subst h2
          simp [helixSegs, loopSegs, betaPairs]

theorem dssp_step_ev_effect (limit : PyStr) (st st' : DsspState) (line : PyStr)
    (evs : List DsspEvent)
    (h : dssp_step_ev limit st line = Except.ok (st', evs)) :
    st'.sses.helix = st.sses.helix ++ helixSegs evs ∧
    st'.sses.loop = st.sses.loop ++ loopSegs evs ∧
    st'.sses.beta = st.sses.beta ∧
    st'.beta_dict = (betaPairs evs).foldl (fun d p => assocAppend d p.1 p.2) st.beta_dict := by
  unfold dssp_step_ev at h
  by_cases hlen : (pySplit line).length < 2
  · rw [if_pos hlen] at h
    simp only [Except.ok.injEq, Prod.mk.injEq] at h
    obtain ⟨h1, h2⟩ := h
    subst h1
    subst h2
    simp [helixSegs, loopSegs, betaPairs]
  rw [if_neg hlen] at h
  by_cases hnr : (pySplit line).get? 1 = some residueTok
  · rw [if_pos hnr] at h
    simp only [Except.ok.injEq, Prod.mk.injEq] at h
    obtain ⟨h1, h2⟩ := h
    subst h1
    subst h2
    simp [helixSegs, loopSegs, betaPairs]
  rw [if_neg hnr] at h
  by_cases hstart : st.start = false
  · rw [if_pos hstart] at h
    simp only [Except.ok.injEq, Prod.mk.injEq] at h
    obtain ⟨h1, h2⟩ := h
    subst h1
    subst h2
    simp [helixSegs, loopSegs, betaPairs]
  rw [if_neg hstart] at h
  cases h9 : pyGet line 9 with
  | error e => rw [h9] at h; simp at h
  | ok c9 =>
    rw [h9] at h
    replace h :
        (if c9 = ' ' then
          match dssp_decide_ev st true with
          | Except.error e => Except.error e
          | Except.ok (st2, evs1) =>
            match dssp_tail st2 true with
            | Except.error e => Except.error e
            | Except.ok st3 => Except.ok (st3, evs1)
        else
          if limit ≠ [] then
            match pyGet line 11 with
            | Except.error e => Except.error e
            | Except.ok c11 =>
              if c11 ∈ limit then dssp_row_ev st line else Except.ok (st, [])
          else dssp_row_ev st line) = Except.ok (st', evs) := h
    have hrowcase : dssp_row_ev st line = Except.ok (st', evs) →
        st'.sses.helix = st.sses.helix ++ helixSegs evs ∧
        st'.sses.loop = st.sses.loop ++ loopSegs evs ∧
        st'.sses.beta = st.sses.beta ∧
        st'.beta_dict =
          (betaPairs evs).foldl (fun d p => assocAppend d p.1 p.2) st.beta_dict := by
      intro hrow
      unfold dssp_row_ev at hrow
      cases hg : gatherRow line with
      | error e => rw [hg] at hrow; simp at hrow
      | ok q =>
        obtain ⟨n, ch, cls, bid⟩ := q
        rw [hg] at hrow
        replace hrow : dssp_row_core_ev st n ch cls bid = Except.ok (st', evs) := hrow
        unfold dssp_row_core_ev at hrow
        cases hdec : dssp_decide_ev { st with
            pdb_res_num := some n, chain := some ch,
            sstype := some cls, beta_id := some bid } false with
        | error e => rw [hdec] at hrow; simp at hrow
        | ok p =>
          obtain ⟨st2, evs1⟩ := p
          rw [hdec] at hrow
          replace hrow :
              (match dssp_tail st2 false with
                | Except.error e => Except.error e
                | Except.ok st3 => Except.ok (st3, evs1)) = Except.ok (st', evs) := hrow
          cases ht : dssp_tail st2 false with
          | error e => rw [ht] at hrow; simp at hrow
          | ok st3 =>
            rw [ht] at hrow
            simp only [Except.ok.injEq, Prod.mk.injEq] at hrow
            obtain ⟨h1, h2⟩ := hrow
            subst h1
            subst h2
            obtain ⟨e1, e2, e3, e4⟩ :=
              dssp_decide_ev_effect { st with
                pdb_res_num := some n, chain := some ch,
                sstype := some cls, beta_id := some bid } st2 false evs1 hdec
            obtain ⟨t1, t2, t3, t4, t5⟩ := dssp_tail_preserves ht
            refine ⟨?_, ?_, ?_, ?_⟩
            · rw [t1]; exact e1
            · rw [t1]; exact e2
            · rw [t1]; exact e3
            · rw [t2]; exact e4
    by_cases hc9 : c9 = ' '
    · rw [if_pos hc9] at h
      cases hdec : dssp_decide_ev st true with
      | error e => rw [hdec] at h; simp at h
      | ok p =>
        obtain ⟨st2, evs1⟩ := p
        rw [hdec] at h
        replace h :
            (match dssp_tail st2 true with
              | Except.error e => Except.error e
              | Except.ok st3 => Except.ok (st3, evs1)) = Except.ok (st', evs) := h
        cases ht : dssp_tail st2 true with
        | error e => rw [ht] at h; simp at h
        | ok st3 =>
          rw [ht] at h
          simp only [Except.ok.injEq, Prod.mk.injEq] at h
          obtain ⟨h1, h2⟩ := h
          subst h1
          subst h2
          obtain ⟨e1, e2, e3, e4⟩ := dssp_decide_ev_effect st st2 true evs1 hdec
          obtain ⟨t1, t2, t3, t4, t5⟩ := dssp_tail_preserves ht
          refine ⟨?_, ?_, ?_, ?_⟩
          · rw [t1]; exact e1
          · rw [t1]; exact e2
          · rw [t1]; exact e3
          · rw [t2]; exact e4
    · rw [if_neg hc9] at h
      by_cases hlim : limit ≠ []
      · rw [if_pos hlim] at h
        cases h11 : pyGet line 11 with
        | error e => rw [h11] at h; simp at h
        | ok c11 =>
          rw [h11] at h
          replace h :
              (if c11 ∈ limit then dssp_row_ev st line else Except.ok (st, [])) =
                Except.ok (st', evs) := h
          by_cases hin : c11 ∈ limit
          · rw [if_pos hin] at h
            exact hrowcase h
          · rw [if_neg hin] at h
            simp only [Except.ok.injEq, Prod.mk.injEq] at h
            obtain ⟨h1, h2⟩ := h
            subst h1
            subst h2
            simp [helixSegs, loopSegs, betaPairs]
      · rw [if_neg hlim] at h
        exact hrowcase h

theorem dssp_run_ev_effect (limit : PyStr) :
    ∀ (ls : List PyStr) (st st' : DsspState) (evs : List DsspEvent),
      dssp_run_ev limit st ls = Except.ok (st', evs) →
      st'.sses.helix = st.sses.helix ++ helixSegs evs ∧
      st'.sses.loop = st.sses.loop ++ loopSegs evs ∧
      st'.sses.beta = st.sses.beta ∧
      st'.beta_dict = (betaPairs evs).foldl (fun d p => assocAppend d p.1 p.2) st.beta_dict := by
  intro ls
  induction ls with
  | nil =>
    intro st st' evs h
    unfold dssp_run_ev at h
    simp only [Except.ok.injEq, Prod.mk.injEq] at h
    obtain ⟨h1, h2⟩ := h
    subst h1
    subst h2
    simp [helixSegs, loopSegs, betaPairs]
  | cons l tl ih =>
    intro st st' evs h
    unfold dssp_run_ev at h
    cases hstep : dssp_step_ev limit st l with
    | error e => rw [hstep] at h; simp at h
    | ok p =>
      obtain ⟨st2, evs1⟩ := p
      rw [hstep] at h
      replace h :
          (match dssp_run_ev limit st2 tl with
            | Except.error e => Except.error e
            | Except.ok (st3, evs2) => Except.ok (st3, evs1 ++ evs2)) =
            Except.ok (st', evs) := h
      cases hrun : dssp_run_ev limit st2 tl with
      | error e => rw [hrun] at h; simp at h
      | ok q =>
        obtain ⟨st3, evs2⟩ := q
        rw [hrun] at h
        simp only [Except.ok.injEq, Prod.mk.injEq] at h
        obtain ⟨h1, h2⟩ := h
        subst h1
        subst h2
        obtain ⟨e1, e2, e3, e4⟩ := dssp_step_ev_effect limit st st2 l evs1 hstep
        obtain ⟨r1, r2, r3, r4⟩ := ih st2 _ evs2 hrun
        refine ⟨?_, ?_, ?_, ?_⟩
        · rw [r1, e1, List.append_assoc]
          congr 1
          simp [helixSegs, List.filterMap_append]
        · rw [r2, e2, List.append_assoc]
          congr 1
          simp [loopSegs, List.filterMap_append]
        · rw [r3, e3]
        · rw [r4, e4]
          rw [← List.foldl_append]
          congr 1
          simp [betaPairs, List.filterMap_append]

/-- Model-level characterization of the output against the closure trace:
helix and loop segments appear exactly in closure (encounter) order; the
beta output is the grouping of the traced (label, strand) closures —
materialized only at the end (`sses.beta` is still empty after the scan) —
with one group per sheet label even when strands of the label are
interleaved with other segments, and strands within a group in encounter
order.  The relative order of DIFFERENT groups (`firstSeen`) reflects this
model's insertion-ordered `beta_dict`; the source's Python 2 dict iterates
in implementation-defined hash order, so that cross-group order is not a
guarantee of the source (see `gatherBetas`). -/
theorem parse_dssp_grouping (lines : List PyStr) (limit : PyStr) (st : DsspState)
    (evs : List DsspEvent)
    (h : dssp_run_ev limit dsspInit lines = Except.ok (st, evs)) :
    parse_dssp lines limit = Except.ok (dssp_final st) ∧
    st.sses.beta = [] ∧
    (dssp_final st).helix = helixSegs (evs ++ finalEvents st) ∧
    (dssp_final st).loop = loopSegs (evs ++ finalEvents st) ∧
    (dssp_final st).beta =
      (groupByFirstSeen (betaPairs (evs ++ finalEvents st))).map Prod.snd ∧
    (∀ ps : List (Option Char × SegEntry),
      (groupByFirstSeen ps).map Prod.fst = firstSeen (ps.map Prod.fst) ∧
      ∀ k, assocLookup (groupByFirstSeen ps) k =
        (if (ps.filterMap fun p => if p.1 = k then some p.2 else none) = []
         then none
         else some (ps.filterMap fun p => if p.1 = k then some p.2 else none))) := by
  obtain ⟨e1, e2, e3, e4⟩ := dssp_run_ev_effect limit lines dsspInit st evs h
  have hh : st.sses.helix = helixSegs evs := by simpa [dsspInit] using e1
  have hl : st.sses.loop = loopSegs evs := by simpa [dsspInit] using e2
  have hbz : st.sses.beta = [] := by simpa [dsspInit] using e3
  have hbd : st.beta_dict = groupByFirstSeen (betaPairs evs) := by
    simpa [dsspInit, groupByFirstSeen] using e4
  have hparse : parse_dssp lines limit = Except.ok (dssp_final st) := by
    unfold parse_dssp
    rw [dssp_run_ev_fst, h]
    simp [Except.map]
  refine ⟨hparse, hbz, ?_, ?_, ?_,
    fun ps => ⟨groupByFirstSeen_keys ps, fun k => groupByFirstSeen_lookup ps k⟩⟩
  · unfold dssp_final finalEvents
    cases hprev : st.prev_sstype with
    | none => simp [gatherBetas_helix, hh]
    | some prev =>
      cases prev <;>
        simp [gatherBetas_helix, add_subsequence, hh, helixSegs, List.filterMap_append]
  · unfold dssp_final finalEvents
    cases hprev : st.prev_sstype with
    | none => simp [gatherBetas_loop, hl]
    | some prev =>
      cases prev <;>
        simp [gatherBetas_loop, add_subsequence, hl, loopSegs, List.filterMap_append]
  · unfold dssp_final finalEvents
    cases hprev : st.prev_sstype with
    | none => simp [gatherBetas_beta, hbz, hbd, betaPairs]
    | some prev =>
      cases prev <;>
        simp [gatherBetas_beta, add_subsequence, hbz, hbd, betaPairs,
          List.filterMap_append, groupByFirstSeen, List.foldl_append]

/-- The interleaved-sheet example: strand A:1 of sheet `1`, a helix row,
then strand A:3 of the same sheet. -/
def dsspInterleaved : List PyStr :=
  [hdrLine, dsspRow 1 'A' 'E' '1', dsspRow 2 'A' 'H' ' ', dsspRow 3 'A' 'E' '1']

/-- Concrete instance of `parse_dssp_grouping`: both strands of sheet `1`
end up in one beta group, in encounter order, despite the interleaved
helix (a single group, so the dict-order caveat is immaterial here). -/
theorem parse_dssp_grouping_witness :
    parse_dssp dsspInterleaved [] =
      Except.ok ⟨[[⟨['A'], (2, 2)⟩]], [[⟨['A'], (1, 1)⟩, ⟨['A'], (3, 3)⟩]], []⟩ := by
  have h := parse_dssp_grouping dsspInterleaved []
    ({ start := true
       beta_dict := [(some '1', [⟨['A'], (1, 1)⟩])]
       prev_sstype := some SSEClass.beta
       cur_sse := ⟨['A'], (3, 3)⟩
       prev_beta_id := some '1'
       pdb_res_num := some 3
       chain := some 'A'
       sstype := some SSEClass.beta
       beta_id := some '1'
       sses := ⟨[[⟨['A'], (2, 2)⟩]], [], []⟩ })
    [(SSEClass.beta, some '1', ⟨['A'], (1, 1)⟩),
     (SSEClass.helix, some ' ', ⟨['A'], (2, 2)⟩)]
    (by decide)
  rw [h.1]
  decide

/-! ## Cross-link deduplication (C6) and row bound (C8) -/

/-- Row index `j` is examined under bound `mx`: `max_num==-1 or nl<max_num`. -/
def inWin (mx : Int) (j : Nat) : Prop := mx = -1 ∨ (j : Int) < mx

/-- The deduplication key a stored record corresponds to. -/
def recKey (r : XLRecord) : XKey :=
  endsKey r.r1.molecule r.r1.residue_index r.r2.molecule r.r2.residue_index

theorem listLt_asymm : ∀ a b : PyStr, listLt a b = true → listLt b a = false := by
  intro a
  induction a with
  | nil =>
    intro b h
    cases b with
    | nil => simp [listLt] at h
    | cons c cs => simp [listLt]
  | cons x xs ih =>
    intro b h
    cases b with
    | nil => simp [listLt] at h
    | cons y ys =>
      by_cases hxy : x = y
      · subst hxy
        rw [listLt, if_pos rfl] at h ⊢
        exact ih ys h
      · rw [listLt, if_neg hxy] at h
        rw [listLt, if_neg (Ne.symm hxy)]
        simp at h ⊢
        exact le_of_lt h

theorem listLt_conn : ∀ a b : PyStr, listLt a b = false → listLt b a = false → a = b := by
  intro a
  induction a with
  | nil =>
    intro b h _
    cases b with
    | nil => rfl
    | cons c cs => simp [listLt] at h
  | cons x xs ih =>
    intro b h h'
    cases b with
    | nil => simp [listLt] at h'
    | cons y ys =>
      by_cases hxy : x = y
      · subst hxy
        rw [listLt, if_pos rfl] at h h'
        rw [ih ys h h']
      · rw [listLt, if_neg hxy] at h
        rw [listLt, if_neg (Ne.symm hxy)] at h'
        simp at h h'
        exact absurd (le_antisymm h' h) hxy

theorem mkKey_comm (a b : PyStr) : mkKey a b = mkKey b a := by
  unfold mkKey
  by_cases hba : listLt b a = true
  · rw [if_pos hba, if_neg (by rw [listLt_asymm b a hba]; simp)]
  · rw [if_neg hba]
    by_cases hab : listLt a b = true
    · rw [if_pos hab]
    · have := listLt_conn b a (by simpa using hba) (by simpa using hab)
      subst this
      rw [if_neg hab]

/-- Swapping the two ends leaves the deduplication key unchanged. -/
theorem endsKey_comm (n1 : PyStr) (r1 : Int) (n2 : PyStr) (r2 : Int) :
    endsKey n1 r1 n2 r2 = endsKey n2 r2 n1 r1 :=
  mkKey_comm (fmtEnd n1 r1) (fmtEnd n2 r2)

theorem rowParse_key {nm : List (PyStr × PyStr)} {offs : List (PyStr × Int)}
    {l : PyStr} {k : XKey} {e1 e2 : XLEnd} {sc : PyStr}
    (h : rowParse nm offs l = Except.ok (k, e1, e2, sc)) :
    k = endsKey e1.molecule e1.residue_index e2.molecule e2.residue_index := by
  unfold rowParse at h
  repeat' split at h
  all_goals simp_all
  obtain ⟨h1, h2, h3, h4⟩ := h
  subst h1
  subst h2
  subst h3
  rfl

theorem xl_run_mono (nm : List (PyStr × PyStr)) (offs : List (PyStr × Int)) (mx : Int) :
    ∀ (ls : List PyStr) (nl : Nat) (st st' : XLState),
      xl_run nm offs mx nl st ls = Except.ok st' →
      (∀ k ∈ st.found, k ∈ st'.found) ∧ (∀ r ∈ st.recs, r ∈ st'.recs) ∧
      (∀ k ∈ st.skipped, k ∈ st'.skipped) ∧
      (∀ r ∈ st'.recs, r ∈ st.recs ∨ nl ≤ r.id) := by
  intro ls
  induction ls with
  | nil =>
    intro nl st st' h
    unfold xl_run at h
    simp only [Except.ok.injEq] at h
    subst h
    exact ⟨fun k hk => hk, fun r hr => hr, fun k hk => hk, fun r hr => Or.inl hr⟩
  | cons l tl ih =>
    intro nl st st' h
    unfold xl_run at h
    by_cases hwin : mx = -1 ∨ (nl : Int) < mx
    · rw [if_pos hwin] at h
      cases hrp : rowParse nm offs l with
      | error e => rw [hrp] at h; simp at h
      | ok q =>
        obtain ⟨k0, e1, e2, sc⟩ := q
        rw [hrp] at h
        replace h :
            (if k0 ∈ st.found then
              xl_run nm offs mx (nl + 1) (xlSkipSt st k0) tl
            else
              xl_run nm offs mx (nl + 1) (xlAddSt st k0 nl e1 e2 sc) tl) =
              Except.ok st' := h
        by_cases hdup : k0 ∈ st.found
        · rw [if_pos hdup] at h
          obtain ⟨m1, m2, m3, m4⟩ := ih (nl + 1) (xlSkipSt st k0) st' h
          refine ⟨fun k hk => m1 k hk, fun r hr => m2 r hr,
            fun k hk => m3 k (by simp [xlSkipSt, hk]), fun r hr => ?_⟩
          rcases m4 r hr with hin | hge
          · exact Or.inl hin
          · exact Or.inr (by omega)
        · rw [if_neg hdup] at h
          obtain ⟨m1, m2, m3, m4⟩ := ih (nl + 1) (xlAddSt st k0 nl e1 e2 sc) st' h
          refine ⟨fun k hk => m1 k (by simp [xlAddSt, hk]),
            fun r hr => m2 r (by simp [xlAddSt, hr]),
            fun k hk => m3 k hk, fun r hr => ?_⟩
          rcases m4 r hr with hin | hge
          · simp only [xlAddSt, List.mem_append, List.mem_singleton] at hin
            rcases hin with hin | rfl
            · exact Or.inl hin
            · exact Or.inr (by simp)
          · exact Or.inr (by omega)
    · rw [if_neg hwin] at h
      obtain ⟨m1, m2, m3, m4⟩ := ih (nl + 1) st st' h
      refine ⟨m1, m2, m3, fun r hr => ?_⟩
      rcases m4 r hr with hin | hge
      · exact Or.inl hin
      · exact Or.inr (by omega)

theorem xl_run_drop (nm : List (PyStr × PyStr)) (offs : List (PyStr × Int)) (mx : Int) :
    ∀ (ls : List PyStr) (nl : Nat) (st st' : XLState),
      xl_run nm offs mx nl st ls = Except.ok st' →
      (∀ r ∈ st.recs, r.id < nl) →
      ∀ (j : Nat) (lj : PyStr) (k : XKey) (x : XLEnd × XLEnd × PyStr),
        inWin mx (nl + j) → ls.get? j = some lj →
        rowParse nm offs lj = Except.ok (k, x) → k ∈ st.found →
        k ∈ st'.skipped ∧ ∀ r ∈ st'.recs, r.id ≠ nl + j := by
  intro ls
  induction ls with
  | nil =>
    intro nl st st' h hlb j lj k x hw hj
    simp at hj
  | cons l tl ih =>
    intro nl st st' h hlb j lj k x hw hj hk hfound
    unfold xl_run at h
    by_cases hwin : mx = -1 ∨ (nl : Int) < mx
    · rw [if_pos hwin] at h
      cases hrp : rowParse nm offs l with
      | error e => rw [hrp] at h; simp at h
      | ok q =>
        obtain ⟨k0, e1, e2, sc⟩ := q
        rw [hrp] at h
        replace h :
            (if k0 ∈ st.found then
              xl_run nm offs mx (nl + 1) (xlSkipSt st k0) tl
            else
              xl_run nm offs mx (nl + 1) (xlAddSt st k0 nl e1 e2 sc) tl) =
              Except.ok st' := h
        cases j with
        | zero =>
          simp only [List.get?] at hj
          injection hj with hj
          subst hj
          rw [hrp] at hk
          simp only [Except.ok.injEq, Prod.mk.injEq] at hk
          obtain ⟨hk1, -⟩ := hk
          subst hk1
          rw [if_pos hfound] at h
          obtain ⟨-, -, m3, m4⟩ := xl_run_mono nm offs mx tl (nl + 1) (xlSkipSt st k0) st' h
          refine ⟨m3 k0 (by simp [xlSkipSt]), fun r hr => ?_⟩
          rcases m4 r hr with hin | hge
          · have := hlb r hin
            omega
          · omega
        | succ j' =>
          by_cases hdup : k0 ∈ st.found
          · rw [if_pos hdup] at h
            rw [show nl + (j' + 1) = nl + 1 + j' by omega]
            exact ih (nl + 1) (xlSkipSt st k0) st' h
              (fun r hr => by
                have := hlb r (by simpa [xlSkipSt] using hr)
                omega)
              j' lj k x (by rw [show nl + 1 + j' = nl + (j' + 1) by omega]; exact hw)
              (by simpa using hj) hk (by simpa [xlSkipSt] using hfound)
          · rw [if_neg hdup] at h
            rw [show nl + (j' + 1) = nl + 1 + j' by omega]
            refine ih (nl + 1) (xlAddSt st k0 nl e1 e2 sc) st' h ?_ j' lj k x
              (by rw [show nl + 1 + j' = nl + (j' + 1) by omega]; exact hw)
              (by simpa using hj) hk (by simp [xlAddSt, hfound])
            intro r hr
            simp only [xlAddSt, List.mem_append, List.mem_singleton] at hr
            rcases hr with hr | rfl
            · have := hlb r hr
              omega
            · simp
    · rw [if_neg hwin] at h
      cases j with
      | zero =>
        exact absurd (by simpa using hw) hwin
      | succ j' =>
        rw [show nl + (j' + 1) = nl + 1 + j' by omega]
        exact ih (nl + 1) st st' h (fun r hr => by have := hlb r hr; omega)
          j' lj k x (by rw [show nl + 1 + j' = nl + (j' + 1) by omega]; exact hw)
          (by simpa using hj) hk hfound

theorem xl_run_dup_later (nm : List (PyStr × PyStr)) (offs : List (PyStr × Int)) (mx : Int) :
    ∀ (ls : List PyStr) (nl : Nat) (st st' : XLState),
      xl_run nm offs mx nl st ls = Except.ok st' →
      (∀ r ∈ st.recs, r.id < nl) →
      ∀ (i j : Nat) (li lj : PyStr) (k : XKey) (xi xj : XLEnd × XLEnd × PyStr),
        i < j → inWin mx (nl + i) → inWin mx (nl + j) →
        ls.get? i = some li → ls.get? j = some lj →
        rowParse nm offs li = Except.ok (k, xi) →
        rowParse nm offs lj = Except.ok (k, xj) →
        k ∈ st'.skipped ∧ ∀ r ∈ st'.recs, r.id ≠ nl + j := by
  intro ls
  induction ls with
  | nil =>
    intro nl st st' h hlb i j li lj k xi xj hij hwi hwj hi hj
    simp at hi
  | cons l tl ih =>
    intro nl st st' h hlb i j li lj k xi xj hij hwi hwj hi hj hri hrj
    unfold xl_run at h
    by_cases hwin : mx = -1 ∨ (nl : Int) < mx
    · rw [if_pos hwin] at h
      cases hrp : rowParse nm offs l with
      | error e => rw [hrp] at h; simp at h
      | ok q =>
        obtain ⟨k0, e1, e2, sc⟩ := q
        rw [hrp] at h
        replace h :
            (if k0 ∈ st.found then
              xl_run nm offs mx (nl + 1) (xlSkipSt st k0) tl
            else
              xl_run nm offs mx (nl + 1) (xlAddSt st k0 nl e1 e2 sc) tl) =
              Except.ok st' := h
        cases i with
        | zero =>
          simp only [List.get?] at hi
          injection hi with hi
          subst hi
          rw [hrp] at hri
          simp only [Except.ok.injEq, Prod.mk.injEq] at hri
          obtain ⟨hk1, -⟩ := hri
          subst hk1
          obtain ⟨j', rfl⟩ : ∃ j', j = j' + 1 := ⟨j - 1, by omega⟩
          have hfound1 : ∀ st1 : XLState, k0 ∈ st1.found →
              (∀ r ∈ st1.recs, r.id < nl + 1) →
              xl_run nm offs mx (nl + 1) st1 tl = Except.ok st' →
              k0 ∈ st'.skipped ∧ ∀ r ∈ st'.recs, r.id ≠ nl + (j' + 1) := by
            intro st1 hf hl1 hrun
            rw [show nl + (j' + 1) = nl + 1 + j' by omega]
            exact xl_run_drop nm offs mx tl (nl + 1) st1 st' hrun hl1 j' lj k0 xj
              (by rw [show nl + 1 + j' = nl + (j' + 1) by omega]; exact hwj)
              (by simpa using hj) hrj hf
          by_cases hdup : k0 ∈ st.found
          · rw [if_pos hdup] at h
            exact hfound1 (xlSkipSt st k0) (by simpa [xlSkipSt] using hdup)
              (fun r hr => by
                have := hlb r (by simpa [xlSkipSt] using hr)
                omega) h
          · rw [if_neg hdup] at h
            refine hfound1 (xlAddSt st k0 nl e1 e2 sc) (by simp [xlAddSt]) ?_ h
            intro r hr
            simp only [xlAddSt, List.mem_append, List.mem_singleton] at hr
            rcases hr with hr | rfl
            · have := hlb r hr
              omega
            · simp
        | succ i' =>
          obtain ⟨j', rfl⟩ : ∃ j', j = j' + 1 := ⟨j - 1, by omega⟩
          rw [show nl + (j' + 1) = nl + 1 + j' by omega]
          have hnext : ∀ st1 : XLState, (∀ r ∈ st1.recs, r.id < nl + 1) →
              xl_run nm offs mx (nl + 1) st1 tl = Except.ok st' →
              k ∈ st'.skipped ∧ ∀ r ∈ st'.recs, r.id ≠ nl + 1 + j' := by
            intro st1 hl1 hrun
            exact ih (nl + 1) st1 st' hrun hl1 i' j' li lj k xi xj (by omega)
              (by rw [show nl + 1 + i' = nl + (i' + 1) by omega]; exact hwi)
              (by rw [show nl + 1 + j' = nl + (j' + 1) by omega]; exact hwj)
              (by simpa using hi) (by simpa using hj) hri hrj
          by_cases hdup : k0 ∈ st.found
          · rw [if_pos hdup] at h
            exact hnext (xlSkipSt st k0)
              (fun r hr => by
                have := hlb r (by simpa [xlSkipSt] using hr)
                omega) h
          · rw [if_neg hdup] at h
            refine hnext (xlAddSt st k0 nl e1 e2 sc) ?_ h
            intro r hr
            simp only [xlAddSt, List.mem_append, List.mem_singleton] at hr
            rcases hr with hr | rfl
            · have := hlb r hr
              omega
            · simp
    · rw [if_neg hwin] at h
      cases i with
      | zero => exact absurd (by simpa using hwi) hwin
      | succ i' =>
        obtain ⟨j', rfl⟩ : ∃ j', j = j' + 1 := ⟨j - 1, by omega⟩
        rw [show nl + (j' + 1) = nl + 1 + j' by omega]
        exact ih (nl + 1) st st' h (fun r hr => by have := hlb r hr; omega)
          i' j' li lj k xi xj (by omega)
          (by rw [show nl + 1 + i' = nl + (i' + 1) by omega]; exact hwi)
          (by rw [show nl + 1 + j' = nl + (j' + 1) by omega]; exact hwj)
          (by simpa using hi) (by simpa using hj) hri hrj

theorem xl_run_keep (nm : List (PyStr × PyStr)) (offs : List (PyStr × Int)) (mx : Int) :
    ∀ (ls : List PyStr) (nl : Nat) (st st' : XLState),
      xl_run nm offs mx nl st ls = Except.ok st' →
      ∀ (j : Nat) (lj : PyStr) (k : XKey) (x : XLEnd × XLEnd × PyStr),
        inWin mx (nl + j) → ls.get? j = some lj →
        rowParse nm offs lj = Except.ok (k, x) →
        (∀ (i : Nat) (li : PyStr) (k' : XKey) (y : XLEnd × XLEnd × PyStr),
          i < j → inWin mx (nl + i) → ls.get? i = some li →
          rowParse nm offs li = Except.ok (k', y) → k' ≠ k) →
        k ∉ st.found →
        ∃ r ∈ st'.recs, r.id = nl + j ∧ r.r1 = x.1 ∧ r.r2 = x.2.1 ∧ r.score = x.2.2 := by
  intro ls
  induction ls with
  | nil =>
    intro nl st st' h j lj k x hw hj
    simp at hj
  | cons l tl ih =>
    intro nl st st' h j lj k x hw hj hrj hfirst hnf
    unfold xl_run at h
    by_cases hwin : mx = -1 ∨ (nl : Int) < mx
    · rw [if_pos hwin] at h
      cases hrp : rowParse nm offs l with
      | error e => rw [hrp] at h; simp at h
      | ok q =>
        obtain ⟨k0, e1, e2, sc⟩ := q
        rw [hrp] at h
        replace h :
            (if k0 ∈ st.found then
              xl_run nm offs mx (nl + 1) (xlSkipSt st k0) tl
            else
              xl_run nm offs mx (nl + 1) (xlAddSt st k0 nl e1 e2 sc) tl) =
              Except.ok st' := h
        cases j with
        | zero =>
          simp only [List.get?] at hj
          injection hj with hj
          subst hj
          rw [hrp] at hrj
          simp only [Except.ok.injEq, Prod.mk.injEq] at hrj
          obtain ⟨hk1, hx⟩ := hrj
          subst hk1
          subst hx
          rw [if_neg hnf] at h
          obtain ⟨-, m2, -, -⟩ := xl_run_mono nm offs mx tl (nl + 1) _ st' h
          exact ⟨⟨nl, e1, e2, sc⟩, m2 _ (by simp [xlAddSt]), by simp, by simp, by simp, by simp⟩
        | succ j' =>
          have hne0 : k0 ≠ k := by
            refine hfirst 0 l k0 (e1, e2, sc) (by omega) ?_ rfl hrp
            simpa using hwin
          have hnext : ∀ st1 : XLState, k ∉ st1.found →
              xl_run nm offs mx (nl + 1) st1 tl = Except.ok st' →
              ∃ r ∈ st'.recs, r.id = nl + (j' + 1) ∧ r.r1 = x.1 ∧ r.r2 = x.2.1 ∧
                r.score = x.2.2 := by
            intro st1 hnf1 hrun
            rw [show nl + (j' + 1) = nl + 1 + j' by omega]
            refine ih (nl + 1) st1 st' hrun j' lj k x
              (by rw [show nl + 1 + j' = nl + (j' + 1) by omega]; exact hw)
              (by simpa using hj) hrj ?_ hnf1
            intro i li k' y hij hwi hi hri
            refine hfirst (i + 1) li k' y (by omega)
              (by rw [show nl + (i + 1) = nl + 1 + i by omega]; exact hwi)
              (by simpa using hi) hri
          by_cases hdup : k0 ∈ st.found
          · rw [if_pos hdup] at h
            exact hnext (xlSkipSt st k0) (by simpa [xlSkipSt] using hnf) h
          · rw [if_neg hdup] at h
            refine hnext (xlAddSt st k0 nl e1 e2 sc) ?_ h
            simp only [xlAddSt, List.mem_cons]
            push_neg
            exact ⟨Ne.symm hne0, hnf⟩
    · rw [if_neg hwin] at h
      cases j with
      | zero => exact absurd (by simpa using hw) hwin
      | succ j' =>
        rw [show nl + (j' + 1) = nl + 1 + j' by omega]
        refine ih (nl + 1) st st' h j' lj k x
          (by rw [show nl + 1 + j' = nl + (j' + 1) by omega]; exact hw)
          (by simpa using hj) hrj ?_ hnf
        intro i li k' y hij hwi hi hri
        refine hfirst (i + 1) li k' y (by omega)
          (by rw [show nl + (i + 1) = nl + 1 + i by omega]; exact hwi)
          (by simpa using hi) hri

theorem xl_run_nodup (nm : List (PyStr × PyStr)) (offs : List (PyStr × Int)) (mx : Int) :
    ∀ (ls : List PyStr) (nl : Nat) (st st' : XLState),
      xl_run nm offs mx nl st ls = Except.ok st' →
      (∀ r ∈ st.recs, recKey r ∈ st.found) →
      (st.recs.map recKey).Nodup →
      (∀ r ∈ st'.recs, recKey r ∈ st'.found) ∧ (st'.recs.map recKey).Nodup := by
  intro ls
  induction ls with
  | nil =>
    intro nl st st' h h1 h2
    unfold xl_run at h
    simp only [Except.ok.injEq] at h
    subst h
    exact ⟨h1, h2⟩
  | cons l tl ih =>
    intro nl st st' h h1 h2
    unfold xl_run at h
    by_cases hwin : mx = -1 ∨ (nl : Int) < mx
    · rw [if_pos hwin] at h
      cases hrp : rowParse nm offs l with
      | error e => rw [hrp] at h; simp at h
      | ok q =>
        obtain ⟨k0, e1, e2, sc⟩ := q
        rw [hrp] at h
        replace h :
            (if k0 ∈ st.found then
              xl_run nm offs mx (nl + 1) (xlSkipSt st k0) tl
            else
              xl_run nm offs mx (nl + 1) (xlAddSt st k0 nl e1 e2 sc) tl) =
              Except.ok st' := h
        have hkey : k0 = recKey ⟨nl, e1, e2, sc⟩ := rowParse_key hrp
        by_cases hdup : k0 ∈ st.found
        · rw [if_pos hdup] at h
          exact ih (nl + 1) (xlSkipSt st k0) st' h h1 h2
        · rw [if_neg hdup] at h
          refine ih (nl + 1) (xlAddSt st k0 nl e1 e2 sc) st' h ?_ ?_
          · intro r hr
            simp only [xlAddSt, List.mem_append, List.mem_singleton] at hr
            rcases hr with hr | rfl
            · simp [xlAddSt, h1 r hr]
            · simp [xlAddSt, ← hkey]
          · have hnotin : recKey ⟨nl, e1, e2, sc⟩ ∉ st.recs.map recKey := by
              intro hmem
              rw [← hkey] at hmem
              obtain ⟨r, hr, hkr⟩ := List.mem_map.mp hmem
              exact hdup (hkr ▸ h1 r hr)
            simp only [xlAddSt, List.map_append, List.map_cons, List.map_nil]
            rw [List.nodup_append]
            exact ⟨h2, List.nodup_singleton _, by simpa using fun hmem => hnotin hmem⟩
    · rw [if_neg hwin] at h
      exact ih (nl + 1) st st' h h1 h2

theorem xl_run_progress (nm : List (PyStr × PyStr)) (offs : List (PyStr × Int)) (mx : Int) :
    ∀ (ls : List PyStr) (nl : Nat) (st : XLState),
      (∀ (j : Nat) (lj : PyStr), inWin mx (nl + j) → ls.get? j = some lj →
        ∃ v, rowParse nm offs lj = Except.ok v) →
      ∃ st', xl_run nm offs mx nl st ls = Except.ok st' := by
  intro ls
  induction ls with
  | nil =>
    intro nl st _
    exact ⟨st, rfl⟩
  | cons l tl ih =>
    intro nl st hall
    unfold xl_run
    by_cases hwin : mx = -1 ∨ (nl : Int) < mx
    · rw [if_pos hwin]
      obtain ⟨⟨k0, e1, e2, sc⟩, hv⟩ := hall 0 l (by simpa using hwin) rfl
      rw [hv]
      have hnext : ∀ (j : Nat) (lj : PyStr), inWin mx (nl + 1 + j) →
          tl.get? j = some lj → ∃ v, rowParse nm offs lj = Except.ok v := by
        intro j lj hw hj
        exact hall (j + 1) lj
          (by rw [show nl + (j + 1) = nl + 1 + j by omega]; exact hw) (by simpa using hj)
      by_cases hdup : k0 ∈ st.found
      · obtain ⟨st', hst'⟩ := ih (nl + 1) (xlSkipSt st k0) hnext
        refine ⟨st', ?_⟩
        simp only [if_pos hdup]
        exact hst'
      · obtain ⟨st', hst'⟩ := ih (nl + 1) (xlAddSt st k0 nl e1 e2 sc) hnext
        refine ⟨st', ?_⟩
        simp only [if_neg hdup]
        exact hst'
    · rw [if_neg hwin]
      exact ih (nl + 1) st
        (fun j lj hw hj => hall (j + 1) lj
          (by rw [show nl + (j + 1) = nl + 1 + j by omega]; exact hw) (by simpa using hj))

/-- C6: cross-link deduplication.  (1) the key is invariant under swapping
the two ends; (2) no two stored records share a key; (3) a row whose key
equals an earlier examined row's key is dropped — no record carries its
index — and its key is reported in the skip diagnostics; (4) a row whose
key has no earlier occurrence is kept, with id equal to its row index and
its parsed ends and score; (5) duplicates never make the parse fail: if
every examined row parses, the whole parse succeeds. -/
theorem parse_xlinks_dedup (lines : List PyStr) (mx : Int)
    (nm : List (PyStr × PyStr)) (offs : List (PyStr × Int))
    (d : List XLRecord) (sk : List XKey)
    (h : parse_xlinks_davis lines mx nm offs = Except.ok (d, sk)) :
    (∀ (n1 : PyStr) (r1 : Int) (n2 : PyStr) (r2 : Int),
      endsKey n1 r1 n2 r2 = endsKey n2 r2 n1 r1) ∧
    (d.map recKey).Nodup ∧
    (∀ (i j : Nat) (li lj : PyStr) (k : XKey) (xi xj : XLEnd × XLEnd × PyStr),
      i < j → inWin mx i → inWin mx j →
      lines.get? i = some li → lines.get? j = some lj →
      rowParse nm offs li = Except.ok (k, xi) →
      rowParse nm offs lj = Except.ok (k, xj) →
      k ∈ sk ∧ ∀ r ∈ d, r.id ≠ j) ∧
    (∀ (j : Nat) (lj : PyStr) (k : XKey) (x : XLEnd × XLEnd × PyStr),
      inWin mx j → lines.get? j = some lj →
      rowParse nm offs lj = Except.ok (k, x) →
      (∀ (i : Nat) (li : PyStr) (k' : XKey) (y : XLEnd × XLEnd × PyStr),
        i < j → inWin mx i → lines.get? i = some li →
        rowParse nm offs li = Except.ok (k', y) → k' ≠ k) →
      ∃ r ∈ d, r.id = j ∧ r.r1 = x.1 ∧ r.r2 = x.2.1 ∧ r.score = x.2.2) ∧
    (∀ lines2 : List PyStr,
      (∀ (j : Nat) (lj : PyStr), inWin mx j → lines2.get? j = some lj →
        ∃ v, rowParse nm offs lj = Except.ok v) →
      ∃ out, parse_xlinks_davis lines2 mx nm offs = Except.ok out) := by
  unfold parse_xlinks_davis at h
  cases hrun : xl_run nm offs mx 0 xlInit lines with
  | error e => rw [hrun] at h; simp at h
  | ok stf =>
    rw [hrun] at h
    simp only [Except.ok.injEq, Prod.mk.injEq] at h
    obtain ⟨hd, hsk⟩ := h
    subst hd
    subst hsk
    refine ⟨fun n1 r1 n2 r2 => endsKey_comm n1 r1 n2 r2, ?_, ?_, ?_, ?_⟩
    · exact (xl_run_nodup nm offs mx lines 0 xlInit stf hrun
        (by simp [xlInit]) (by simp [xlInit])).2
    · intro i j li lj k xi xj hij hwi hwj hi hj hri hrj
      have hcon := xl_run_dup_later nm offs mx lines 0 xlInit stf hrun
        (by simp [xlInit]) i j li lj k xi xj hij
        (by simpa using hwi) (by simpa using hwj) hi hj hri hrj
      simpa using hcon
    · intro j lj k x hw hj hrj hfirst
      have hcon := xl_run_keep nm offs mx lines 0 xlInit stf hrun j lj k x
        (by simpa using hw) hj hrj
        (fun i li k' y hij hwi hi hri =>
          hfirst i li k' y hij (by simpa using hwi) hi hri)
        (by simp [xlInit])
      simpa using hcon
    · intro lines2 hall
      obtain ⟨st', hst'⟩ := xl_run_progress nm offs mx lines2 0 xlInit
        (fun j lj hw hj => hall j lj (by simpa using hw) hj)
      exact ⟨(st'.recs, st'.skipped), by unfold parse_xlinks_davis; rw [hst']⟩

/-- Witness for `parse_xlinks_dedup`: on the two rows `A(5)-B(10)` and
`B(10)-A(5)` the swapped second row is dropped (no record with id 1, its
key reported) even though its score differs. -/
theorem parse_xlinks_dedup_witness :
    ((['A', '.', '5'], ['B', '.', '1', '0']) : XKey) ∈
      [((['A', '.', '5'], ['B', '.', '1', '0']) : XKey)] ∧
    ∀ r ∈ [(⟨0, ⟨['A'], 5⟩, ⟨['B'], 10⟩, ['1', '2', '.', '5']⟩ : XLRecord)],
      XLRecord.id r ≠ 1 := by
  have h := parse_xlinks_dedup [xlRowAB, xlRowBA] (-1) [] []
    [⟨0, ⟨['A'], 5⟩, ⟨['B'], 10⟩, ['1', '2', '.', '5']⟩]
    [(['A', '.', '5'], ['B', '.', '1', '0'])] (by decide)
  exact h.2.2.1 0 1 xlRowAB xlRowBA (['A', '.', '5'], ['B', '.', '1', '0'])
    (⟨['A'], 5⟩, ⟨['B'], 10⟩, ['1', '2', '.', '5'])
    (⟨['B'], 10⟩, ⟨['A'], 5⟩, ['9', '9', '.', '0'])
    (by omega) (Or.inl rfl) (Or.inl rfl) rfl rfl (by decide) (by decide)

theorem xl_run_len (nm : List (PyStr × PyStr)) (offs : List (PyStr × Int)) (k : Nat) :
    ∀ (ls : List PyStr) (nl : Nat) (st st' : XLState),
      xl_run nm offs (k : Int) nl st ls = Except.ok st' →
      st'.recs.length ≤ st.recs.length + (k - nl) := by
  intro ls
  induction ls with
  | nil =>
    intro nl st st' h
    unfold xl_run at h
    simp only [Except.ok.injEq] at h
    subst h
    omega
  | cons l tl ih =>
    intro nl st st' h
    unfold xl_run at h
    by_cases hwin : (k : Int) = -1 ∨ (nl : Int) < (k : Int)
    · rw [if_pos hwin] at h
      have hnk : nl < k := by
        rcases hwin with h1 | h2
        · omega
        · exact_mod_cast h2
      cases hrp : rowParse nm offs l with
      | error e => rw [hrp] at h; simp at h
      | ok q =>
        obtain ⟨k0, e1, e2, sc⟩ := q
        rw [hrp] at h
        replace h :
            (if k0 ∈ st.found then
              xl_run nm offs (k : Int) (nl + 1) (xlSkipSt st k0) tl
            else
              xl_run nm offs (k : Int) (nl + 1) (xlAddSt st k0 nl e1 e2 sc) tl) =
              Except.ok st' := h
        by_cases hdup : k0 ∈ st.found
        · rw [if_pos hdup] at h
          have := ih (nl + 1) (xlSkipSt st k0) st' h
          simp only [xlSkipSt] at this
          omega
        · rw [if_neg hdup] at h
          have := ih (nl + 1) (xlAddSt st k0 nl e1 e2 sc) st' h
          simp only [xlAddSt, List.length_append, List.length_cons, List.length_nil] at this
          omega
    · rw [if_neg hwin] at h
      have := ih (nl + 1) st st' h
      have hnk : ¬ nl < k := by
        intro hlt
        exact hwin (Or.inr (by exact_mod_cast hlt))
      omega

theorem xl_run_ids (nm : List (PyStr × PyStr)) (offs : List (PyStr × Int)) (k : Nat) :
    ∀ (ls : List PyStr) (nl : Nat) (st st' : XLState),
      xl_run nm offs (k : Int) nl st ls = Except.ok st' →
      ∀ r ∈ st'.recs, r ∈ st.recs ∨ r.id < k := by
  intro ls
  induction ls with
  | nil =>
    intro nl st st' h r hr
    unfold xl_run at h
    simp only [Except.ok.injEq] at h
    subst h
    exact Or.inl hr
  | cons l tl ih =>
    intro nl st st' h r hr
    unfold xl_run at h
    by_cases hwin : (k : Int) = -1 ∨ (nl : Int) < (k : Int)
    · rw [if_pos hwin] at h
      have hnk : nl < k := by
        rcases hwin with h1 | h2
        · omega
        · exact_mod_cast h2
      cases hrp : rowParse nm offs l with
      | error e => rw [hrp] at h; simp at h
      | ok q =>
        obtain ⟨k0, e1, e2, sc⟩ := q
        rw [hrp] at h
        replace h :
            (if k0 ∈ st.found then
              xl_run nm offs (k : Int) (nl + 1) (xlSkipSt st k0) tl
            else
              xl_run nm offs (k : Int) (nl + 1) (xlAddSt st k0 nl e1 e2 sc) tl) =
              Except.ok st' := h
        by_cases hdup : k0 ∈ st.found
        · rw [if_pos hdup] at h
          exact ih (nl + 1) (xlSkipSt st k0) st' h r hr
        · rw [if_neg hdup] at h
          rcases ih (nl + 1) (xlAddSt st k0 nl e1 e2 sc) st' h r hr with hin | hlt
          · simp only [xlAddSt, List.mem_append, List.mem_singleton] at hin
            rcases hin with hin | rfl
            · exact Or.inl hin
            · exact Or.inr (by simpa using hnk)
          · exact Or.inr hlt
    · rw [if_neg hwin] at h
      exact ih (nl + 1) st st' h r hr

theorem xl_run_unlimited (nm : List (PyStr × PyStr)) (offs : List (PyStr × Int)) :
    ∀ (ls : List PyStr) (nl : Nat) (st : XLState) (n : Int),
      (nl : Int) + ls.length ≤ n →
      xl_run nm offs (-1) nl st ls = xl_run nm offs n nl st ls := by
  intro ls
  induction ls with
  | nil => intro nl st n _; rfl
  | cons l tl ih =>
    intro nl st n hle
    unfold xl_run
    simp only [List.length_cons] at hle
    have hwin : (nl : Int) < n := by
      push_cast at hle
      omega
    rw [if_pos (Or.inl rfl), if_pos (Or.inr hwin)]
    cases rowParse nm offs l with
    | error e => rfl
    | ok q =>
      obtain ⟨k0, e1, e2, sc⟩ := q
      by_cases hdup : k0 ∈ st.found
      · simp only [if_pos hdup]
        exact ih (nl + 1) (xlSkipSt st k0) n (by push_cast at hle ⊢; omega)
      · simp only [if_neg hdup]
        exact ih (nl + 1) (xlAddSt st k0 nl e1 e2 sc) n (by push_cast at hle ⊢; omega)

/-- C8: under a non-negative bound `k`, only the first `k` rows are
examined: a successful parse returns at most `k` records, none of which
originates at index `k` or beyond; with `max_num = -1` the run is the same
as with the bound equal to the file length, i.e. the entire file is
consumed. -/
theorem parse_xlinks_max_records (lines : List PyStr) (nm : List (PyStr × PyStr))
    (offs : List (PyStr × Int)) (k : Nat) (d : List XLRecord) (sk : List XKey)
    (h : parse_xlinks_davis lines (k : Int) nm offs = Except.ok (d, sk)) :
    d.length ≤ k ∧ (∀ r ∈ d, r.id < k) ∧
    parse_xlinks_davis lines (-1) nm offs =
      parse_xlinks_davis lines (lines.length : Int) nm offs := by
  unfold parse_xlinks_davis at h ⊢
  cases hrun : xl_run nm offs (k : Int) 0 xlInit lines with
  | error e => rw [hrun] at h; simp at h
  | ok stf =>
    rw [hrun] at h
    simp only [Except.ok.injEq, Prod.mk.injEq] at h
    obtain ⟨hd, hsk⟩ := h
    subst hd
    subst hsk
    refine ⟨?_, ?_, ?_⟩
    · have := xl_run_len nm offs k lines 0 xlInit stf hrun
      simpa [xlInit] using this
    · intro r hr
      rcases xl_run_ids nm offs k lines 0 xlInit stf hrun r hr with hin | hlt
      · simp [xlInit] at hin
      · exact hlt
    · rw [xl_run_unlimited nm offs lines 0 xlInit (lines.length : Int) (by simp)]

/-- Witness for `parse_xlinks_max_records`: with `max_num = 1` on a
three-row file the single record originates from row 0. -/
theorem parse_xlinks_max_records_witness :
    ([(⟨0, ⟨['A'], 5⟩, ⟨['B'], 10⟩, ['1', '2', '.', '5']⟩ : XLRecord)].length ≤ 1) ∧
    ∀ r ∈ [(⟨0, ⟨['A'], 5⟩, ⟨['B'], 10⟩, ['1', '2', '.', '5']⟩ : XLRecord)],
      XLRecord.id r < 1 := by
  have h := parse_xlinks_max_records [xlRowAB, xlRowBA, xlRowSix] [] [] 1
    [⟨0, ⟨['A'], 5⟩, ⟨['B'], 10⟩, ['1', '2', '.', '5']⟩] [] (by decide)
  exact ⟨h.1, h.2.1⟩
